import Mathlib

/-
Verification of the variant/requirement resolution engine of spack-mpd
(`mpd/config.py`).  The Python code is shallowly embedded: strings are
`List Char`, Python dicts are association lists with in-place update
(`dictInsert`), fatal conditions (`tty.die`) and runtime exceptions are
`Except Err`.  The external spack token source (`SpecParser`) is modelled
from the spec (section 6) as `sptokenize`.
-/

namespace Mpd

/-- Python strings are modelled as lists of characters. -/
abbrev Str := List Char

/-- A variant value: either a string (versions, key-value pairs, compiler
names) or a boolean (boolean variants).  Mirrors the `value` entry of
`_variant_pair` in `mpd/config.py`. -/
inductive Val where
  | s (v : Str)
  | b (v : Bool)
deriving DecidableEq, Repr

/-- `_variant_pair(value, variant)` from `mpd/config.py` line 21: the
semantic value plus the canonical textual form. -/
structure VariantPair where
  value : Val
  variant : Str
deriving DecidableEq, Repr

/-- Errors: `tty.die` calls and Python runtime exceptions raised by
`mpd/config.py`. -/
inductive Err where
  | unsupportedToken (value : Str)
  | attributeError
  | indexError
  | unknownPackages (paths : List Str)
  | unboundLocal
  | typeError
deriving DecidableEq, Repr

/-- Token kinds of the external spack `SpecParser` consumed by
`mpd/config.py` (spec section 6); `GIT_VERSION` and `DAG_HASH` stand for
the kinds the classifier does not support. -/
inductive TokenType where
  | COMPILER
  | COMPILER_AND_VERSION
  | VERSION
  | BOOL_VARIANT
  | PROPAGATED_BOOL_VARIANT
  | KEY_VALUE_PAIR
  | PROPAGATED_KEY_VALUE_PAIR
  | DEPENDENCY
  | START_EDGE_PROPERTIES
  | END_EDGE_PROPERTIES
  | UNQUALIFIED_PACKAGE_NAME
  | GIT_VERSION
  | DAG_HASH
deriving DecidableEq, Repr

/-- A token of the external token source: a kind and its raw text. -/
structure Token where
  kind : TokenType
  value : Str
deriving DecidableEq, Repr

/-! ### Association-list model of Python dicts -/

/-- Lookup in an association list (Python `d[k]` / `d.get(k)`). -/
def alookup [DecidableEq κ] (k : κ) : List (κ × α) → Option α
  | [] => none
  | p :: m => if p.1 = k then some p.2 else alookup k m

/-- Python dict assignment `d[k] = v`: updates the entry in place if the
key exists (keeping its position), otherwise appends. -/
def dictInsert [DecidableEq κ] : List (κ × α) → κ → α → List (κ × α)
  | [], k, v => [(k, v)]
  | p :: m, k, v => if p.1 = k then (k, v) :: m else p :: dictInsert m k v

/-- Python `d.pop(k, None)`: the value (if any) and the dict with that
entry removed. -/
def dictPop [DecidableEq κ] (k : κ) : List (κ × α) → Option α × List (κ × α)
  | [] => (none, [])
  | p :: m =>
    if p.1 = k then (some p.2, m)
    else
      let r := dictPop k m
      (r.1, p :: r.2)

/-- Python `d.setdefault(k, {})` restricted to its effect on the outer
dict: ensure an (empty) entry exists for `k`. -/
def setdefaultEmpty [DecidableEq κ] (m : List (κ × List β)) (k : κ) : List (κ × List β) :=
  if (alookup k m).isSome then m else m ++ [(k, [])]

/-! ### Constant variant pairs (`mpd/config.py` lines 27-29) -/

def kversion : Str := "version".toList
def kcompiler : Str := "compiler".toList
def kcxxstd : Str := "cxxstd".toList
def kgenerator : Str := "generator".toList
def kall : Str := "all".toList

def DEFAULT_CXXSTD : VariantPair := ⟨.s "17".toList, "cxxstd=17".toList⟩
def DEFAULT_GENERATOR : VariantPair := ⟨.s "make".toList, "generator=make".toList⟩
def DEVELOP_VARIANT : VariantPair := ⟨.s "develop".toList, "@develop".toList⟩

/-! ### `ordered_requirement_list` (`mpd/config.py` lines 92-101) -/

/-- Serialize a requirement map: `version` first, `compiler` second (each
if present), then the remaining values in map order.  The `YamlQuote`
wrapper of the source is a presentation detail and is modelled as the
identity. -/
def ordered_requirement_list (requirements : List (Str × Str)) : List Str :=
  let r1 := dictPop kversion requirements
  let l1 : List Str := match r1.1 with | some v => [v] | none => []
  let r2 := dictPop kcompiler r1.2
  let l2 : List Str := match r2.1 with | some v => [v] | none => []
  l1 ++ l2 ++ r2.2.map Prod.snd

/-! ### `handle_variant` (`mpd/config.py` lines 104-121) -/

/-- Python `str.strip()`. -/
def trim (s : Str) : Str :=
  ((s.dropWhile Char.isWhitespace).reverse.dropWhile Char.isWhitespace).reverse

/-- A word character of the `SPLIT_KVP` name group. -/
def isWordChar (c : Char) : Bool :=
  c.isAlphanum || c == '_' || c == '-'

/-- The spack `SPLIT_KVP` regular expression `^(name)(==?)(.*)$`:
key, `=`/`==` separator, value. -/
def splitKVP (s : Str) : Option (Str × Str × Str) :=
  let name := s.takeWhile isWordChar
  let rest := s.dropWhile isWordChar
  if name = [] then none
  else
    match rest with
    | '=' :: '=' :: v => some (name, ['=', '='], v)
    | '=' :: v => some (name, ['='], v)
    | _ => none

/-- The Variant Classifier (`handle_variant`, lines 104-121): one token to
a `(name, VariantPair)`; unsupported kinds are fatal (`tty.die`). -/
def handle_variant (token : Token) : Except Err (Str × VariantPair) :=
  match token.kind with
  | .COMPILER => .ok (kcompiler, ⟨.s (token.value.drop 1), token.value⟩)
  | .COMPILER_AND_VERSION => .ok (kcompiler, ⟨.s (token.value.drop 1), token.value⟩)
  | .KEY_VALUE_PAIR | .PROPAGATED_KEY_VALUE_PAIR =>
    match splitKVP token.value with
    | some g => .ok (g.1, ⟨.s g.2.2, token.value⟩)
    | none => .error Err.attributeError
  | .BOOL_VARIANT =>
    match token.value with
    | [] => .error Err.indexError
    | c :: rest => .ok (trim rest, ⟨.b (c == '+'), token.value⟩)
  | .PROPAGATED_BOOL_VARIANT =>
    .ok (trim (token.value.drop 2), ⟨.b (token.value.take 2 == ['+', '+']), token.value⟩)
  | .VERSION => .ok (kversion, ⟨.s (token.value.drop 1), token.value⟩)
  | _ => .error (Err.unsupportedToken token.value)

/-! ### The external token source, modelled from the spec (section 6) -/

/-- Whether the string contains two adjacent `=` characters. -/
def hasDoubleEq : Str → Bool
  | '=' :: '=' :: _ => true
  | _ :: r => hasDoubleEq r
  | [] => false

/-- Modelled from the spec: tokenization of a single whitespace-free word
by the external spack `SpecParser` (spec section 6 token kinds): `^` is a
dependency marker, `@...` a version, `%...` a compiler (with version if it
contains `@`), `+x`/`~x` boolean variants (`++x`/`~~x` propagated),
`k=v`/`k==v` key-value pairs, `name@ver` a package name followed by a
version, and a bare name a package name. -/
def tokenizeWord (w : Str) : List Token :=
  match w with
  | [] => []
  | '^' :: rest => ⟨.DEPENDENCY, ['^']⟩ :: tokenizeWord rest
  | '@' :: _ => [⟨.VERSION, w⟩]
  | '%' :: rest =>
    if rest.contains '@' then [⟨.COMPILER_AND_VERSION, w⟩] else [⟨.COMPILER, w⟩]
  | '+' :: '+' :: _ => [⟨.PROPAGATED_BOOL_VARIANT, w⟩]
  | '~' :: '~' :: _ => [⟨.PROPAGATED_BOOL_VARIANT, w⟩]
  | '+' :: _ => [⟨.BOOL_VARIANT, w⟩]
  | '~' :: _ => [⟨.BOOL_VARIANT, w⟩]
  | _ =>
    if hasDoubleEq w then [⟨.PROPAGATED_KEY_VALUE_PAIR, w⟩]
    else if w.contains '=' then [⟨.KEY_VALUE_PAIR, w⟩]
    else if w.contains '@' then
      [⟨.UNQUALIFIED_PACKAGE_NAME, w.takeWhile (fun c => !(c == '@'))⟩,
       ⟨.VERSION, w.dropWhile (fun c => !(c == '@'))⟩]
    else [⟨.UNQUALIFIED_PACKAGE_NAME, w⟩]

/-- Split a string into whitespace-separated words (accumulator form). -/
def splitWordsAux : Str → Str → List Str
  | [], acc => if acc = [] then [] else [acc.reverse]
  | c :: r, acc =>
    if c = ' ' then
      if acc = [] then splitWordsAux r [] else acc.reverse :: splitWordsAux r []
    else splitWordsAux r (c :: acc)

/-- Split a string into space-separated words. -/
def splitWords (s : Str) : List Str := splitWordsAux s []

/-- Python `" ".join`. -/
def joinWords : List Str → Str
  | [] => []
  | [w] => w
  | w :: ws => w ++ ' ' :: joinWords ws

/-- Modelled from the spec: the external token source
`tokenize(variantString) -> sequence of Token` (spec section 6), as
word-splitting followed by per-word tokenization. -/
def sptokenize (s : Str) : List Token :=
  (splitWords s).foldr (fun w acc => tokenizeWord w ++ acc) []

/-! ### The token walk of `handle_variants` (`mpd/config.py` lines 155-189) -/

/-- The dict the scattered `variant_map` alias of the source currently
points at: the general map, a package-scoped map, or a dependency-scoped
map. -/
inductive Scope where
  | general
  | pkg (name : Str)
  | dep (name : Str)
deriving DecidableEq, Repr

/-- The mutable state of the token walk (`mpd/config.py` lines 155-163). -/
structure WalkState where
  general_variant_map : List (Str × VariantPair) := []
  package_variant_map : List (Str × List (Str × VariantPair)) := []
  dependency_variant_map : List (Str × List (Str × VariantPair)) := []
  virtual_package : Option Val := none
  virtual_dependency : Bool := false
  virtual_dependencies : List (Option Val × List Str) := []
  concrete_package_expected : Bool := false
  dependency : Bool := false
  scope : Scope := .general
deriving DecidableEq, Repr

/-- `variant_map[name] = variant_pair` (line 189), writing through the
current scope alias. -/
def writeVariant (st : WalkState) (n : Str) (vp : VariantPair) : WalkState :=
  match st.scope with
  | .general => { st with general_variant_map := dictInsert st.general_variant_map n vp }
  | .pkg p =>
    let inner := dictInsert ((alookup p st.package_variant_map).getD []) n vp
    { st with package_variant_map := dictInsert st.package_variant_map p inner }
  | .dep p =>
    let inner := dictInsert ((alookup p st.dependency_variant_map).getD []) n vp
    { st with dependency_variant_map := dictInsert st.dependency_variant_map p inner }

/-- One iteration of the token walk (`mpd/config.py` lines 164-189). -/
def walkStep (st : WalkState) (token : Token) : Except Err WalkState :=
  match token.kind with
  | .DEPENDENCY => .ok { st with dependency := true }
  | .START_EDGE_PROPERTIES => .ok { st with virtual_dependency := true }
  | .END_EDGE_PROPERTIES =>
    .ok { st with virtual_dependency := false, concrete_package_expected := true }
  | .UNQUALIFIED_PACKAGE_NAME =>
    if st.concrete_package_expected then
      let providers := ((alookup st.virtual_package st.virtual_dependencies).getD []) ++ [token.value]
      let vd := dictInsert st.virtual_dependencies st.virtual_package providers
      .ok { st with virtual_dependencies := vd, virtual_package := none,
                    concrete_package_expected := false }
    else if st.dependency then
      let dmap := setdefaultEmpty st.dependency_variant_map token.value
      .ok { st with dependency_variant_map := dmap, scope := .dep token.value }
    else
      let pmap := setdefaultEmpty st.package_variant_map token.value
      .ok { st with package_variant_map := pmap, scope := .pkg token.value }
  | _ =>
    match handle_variant token with
    | .error e => .error e
    | .ok nv =>
      if st.virtual_dependency then .ok { st with virtual_package := some nv.2.value }
      else .ok (writeVariant st nv.1 nv.2)

/-- The full token walk. -/
def walkTokens (st : WalkState) : List Token → Except Err WalkState
  | [] => .ok st
  | t :: ts =>
    match walkStep st t with
    | .ok st' => walkTokens st' ts
    | .error e => .error e

/-! ### `spack_packages` (`mpd/config.py` lines 124-149) -/

/-- A resolved spack package descriptor: the optional `has_variant`
method (older spack versions lack it, hence the `getattr` default on line
237) and the declared `variants` set. -/
structure PkgDesc where
  has_variant : Option (Str → Bool)
  variants : List Str

/-- `getattr(pkg, "has_variant", lambda _: False)` applied to a name. -/
def maybe_has_variant (pkg : PkgDesc) (n : Str) : Bool :=
  match pkg.has_variant with
  | some f => f n
  | none => false

/-- The combined capability check used on lines 238, 240 and 245. -/
def pkgSupports (pkg : PkgDesc) (n : Str) : Bool :=
  maybe_has_variant pkg n || pkg.variants.contains n

/-- The external collaborators of `spack_packages`: directory enumeration
and the spack package catalog (`PATH.get_pkg_class`). -/
structure Env where
  listdir : Str → List Str
  catalog : Str → Option PkgDesc

/-- A directory entry not starting with `.` (line 128). -/
def notHidden : Str → Bool
  | '.' :: _ => false
  | _ => true

/-- Lexicographic comparison of strings (Python `sorted`). -/
def strLe : Str → Str → Bool
  | [], _ => true
  | _ :: _, [] => false
  | a :: as, b :: bs => if a = b then strLe as bs else decide (a < b)

/-- Stable insertion used by `sortStr`. -/
def insSorted (x : Str) : List Str → List Str
  | [] => [x]
  | y :: ys => if strLe x y then x :: y :: ys else y :: insSorted x ys

/-- Python `sorted` on strings. -/
def sortStr (l : List Str) : List Str := l.foldr insSorted []

/-- `path / p` (line 146). -/
def pathJoin (dir p : Str) : Str := dir ++ '/' :: p

/-- The scanning loop of `spack_packages` (lines 132-140).  The `last`
argument is the current value of the loop-local `pkg_cls` variable: on an
`UnknownPackageError` the source has no `continue`, so
`packages_to_develop[p] = pkg_cls(spec)` still runs with the previous
(stale) class, and raises `UnboundLocalError` when no package resolved
yet. -/
def scanPackages (env : Env) :
    List Str → List Str → List (Str × PkgDesc) → Option PkgDesc →
    Except Err (List Str × List (Str × PkgDesc))
  | [], unknown, pkgs, _ => .ok (unknown, pkgs)
  | p :: ps, unknown, pkgs, last =>
    match env.catalog p with
    | some cls => scanPackages env ps unknown (dictInsert pkgs p cls) (some cls)
    | none =>
      match last with
      | none => .error Err.unboundLocal
      | some cls => scanPackages env ps (unknown ++ [p]) (dictInsert pkgs p cls) (some cls)

/-- The Package Existence Check (`spack_packages`, lines 124-149). -/
def spack_packages (env : Env) (srcs_dir : Str) : Except Err (List (Str × PkgDesc)) :=
  let srcs_repos := sortStr ((env.listdir srcs_dir).filter notHidden)
  match scanPackages env srcs_repos [] [] none with
  | .error e => .error e
  | .ok r =>
    if r.1 = [] then .ok r.2
    else .error (Err.unknownPackages (r.1.map (pathJoin srcs_dir)))

/-! ### `handle_variants` (`mpd/config.py` lines 152-266) -/

/-- An entry of the `dependencies` map: either a requirement list or the
reserved `all -> providers` entry. -/
inductive DepEntry where
  | require (rs : List Str)
  | providers (ps : List (Option Val × List Str))
deriving DecidableEq, Repr

/-- The project configuration fields read or written by
`handle_variants`.  Outer `Option`s model key absence in the underlying
Python dict (`"compiler" not in project_cfg` etc.); for `compiler` the
inner `Option` models an explicit `None` value (line 197). -/
structure ProjectConfig where
  name : Str
  source : Str
  compiler : Option (Option VariantPair) := none
  cxxstd : Option VariantPair := none
  generator : Option VariantPair := none
  variants : Option Str := none
  packages : List (Str × List Str) := []
  dependencies : List (Str × DepEntry) := []
deriving DecidableEq, Repr

/-- The compiler extraction (lines 191-197); also returns the
project-level compiler used on line 235. -/
def compilerBlock (cfg : ProjectConfig) (g : List (Str × VariantPair)) :
    ProjectConfig × List (Str × VariantPair) × Option VariantPair :=
  let r := dictPop kcompiler g
  match r.1 with
  | some c => ({ cfg with compiler := some (some c) }, r.2, some c)
  | none =>
    match cfg.compiler with
    | some c => (cfg, r.2, c)
    | none => ({ cfg with compiler := some none }, r.2, none)

/-- The C++ standard extraction (lines 199-204); also returns the value
read on line 217. -/
def cxxstdBlock (cfg : ProjectConfig) (g : List (Str × VariantPair)) :
    ProjectConfig × List (Str × VariantPair) × VariantPair :=
  let r := dictPop kcxxstd g
  match r.1 with
  | some v => ({ cfg with cxxstd := some v }, r.2, v)
  | none =>
    match cfg.cxxstd with
    | some v => (cfg, r.2, v)
    | none => ({ cfg with cxxstd := some DEFAULT_CXXSTD }, r.2, DEFAULT_CXXSTD)

/-- The generator extraction (lines 206-211). -/
def generatorBlock (cfg : ProjectConfig) (g : List (Str × VariantPair)) :
    ProjectConfig × List (Str × VariantPair) × VariantPair :=
  let r := dictPop kgenerator g
  match r.1 with
  | some v => ({ cfg with generator := some v }, r.2, v)
  | none =>
    match cfg.generator with
    | some v => (cfg, r.2, v)
    | none => ({ cfg with generator := some DEFAULT_GENERATOR }, r.2, DEFAULT_GENERATOR)

/-- Re-tokenization of a stored requirement list (lines 228-231): each
token classified, storing its canonical text under its name. -/
def reparseFold : List Token → List (Str × Str) → Except Err (List (Str × Str))
  | [], m => .ok m
  | t :: ts, m =>
    match handle_variant t with
    | .error e => .error e
    | .ok nv => reparseFold ts (dictInsert m nv.1 nv.2.variant)

/-- The body of the per-package loop (lines 224-253) for one package. -/
def processPackage (tok : Str → List Token) (compiler : Option VariantPair)
    (cxxstd generator : VariantPair) (gmap : List (Str × VariantPair))
    (pmap : List (Str × List (Str × VariantPair)))
    (packages : List (Str × List Str)) (p : Str) (pkg : PkgDesc) :
    Except Err (List (Str × List Str)) :=
  let existing := (alookup p packages).getD []
  match reparseFold (tok (joinWords existing)) [] with
  | .error e => .error e
  | .ok m0 =>
    let r1 := dictInsert m0 kversion DEVELOP_VARIANT.variant
    let r2 :=
      match compiler with
      | some c => dictInsert r1 kcompiler c.variant
      | none => r1
    let r3 := if pkgSupports pkg kcxxstd then dictInsert r2 kcxxstd cxxstd.variant else r2
    let r4 := if pkgSupports pkg kgenerator then dictInsert r3 kgenerator generator.variant else r3
    let r5 := gmap.foldl
      (fun acc nv => if pkgSupports pkg nv.1 then dictInsert acc nv.1 nv.2.variant else acc) r4
    let only_variants := ((alookup p pmap).getD []).map (fun kv => (kv.1, kv.2.variant))
    let r6 := only_variants.foldl (fun acc nv => dictInsert acc nv.1 nv.2) r5
    .ok (dictInsert packages p (ordered_requirement_list r6))

/-- The per-package loop (lines 224-253). -/
def processPackages (tok : Str → List Token) (compiler : Option VariantPair)
    (cxxstd generator : VariantPair) (gmap : List (Str × VariantPair))
    (pmap : List (Str × List (Str × VariantPair))) :
    List (Str × List Str) → List (Str × PkgDesc) → Except Err (List (Str × List Str))
  | packages, [] => .ok packages
  | packages, pp :: rest =>
    match processPackage tok compiler cxxstd generator gmap pmap packages pp.1 pp.2 with
    | .error e => .error e
    | .ok packages' => processPackages tok compiler cxxstd generator gmap pmap packages' rest

/-- Lines 216-266 of `handle_variants`: the package/dependency phase,
after the compiler/cxxstd/generator extractions produced `cfg`,
`compiler`, `cxxstd`, `generator` and the remaining general map `gmap`.
The dependency loop of lines 256-258 iterates over the keys of each
per-dependency dict and subscripts those key strings with `["variant"]`
(and then passes a list to `ordered_requirement_list`, which pops by
name), so it raises `TypeError` whenever `dependency_variant_map` is
non-empty; this is modelled by `Err.typeError`. -/
def mergeAfterBlocks (tok : Str → List Token) (env : Env) (cfg : ProjectConfig)
    (compiler : Option VariantPair) (cxxstd generator : VariantPair)
    (gmap : List (Str × VariantPair)) (st : WalkState) : Except Err ProjectConfig :=
  match spack_packages env cfg.source with
  | .error e => .error e
  | .ok packages_to_develop =>
    let packages0 := cfg.packages.filter (fun kv => (alookup kv.1 packages_to_develop).isSome)
    match processPackages tok compiler cxxstd generator gmap st.package_variant_map
        packages0 packages_to_develop with
    | .error e => .error e
    | .ok packages =>
      if st.dependency_variant_map = [] then
        let dependency_requirements := cfg.dependencies
        let dependency_requirements :=
          if st.virtual_dependencies = [] then dependency_requirements
          else dictInsert dependency_requirements kall (DepEntry.providers st.virtual_dependencies)
        .ok { cfg with packages := packages, dependencies := dependency_requirements }
      else .error Err.typeError

/-- Lines 191-266 of `handle_variants`: everything after the token
walk. -/
def mergeAfterWalk (tok : Str → List Token) (env : Env) (project_cfg : ProjectConfig)
    (variants : List Str) (st : WalkState) : Except Err ProjectConfig :=
  let b1 := compilerBlock project_cfg st.general_variant_map
  let b2 := cxxstdBlock b1.1 b1.2.1
  let b3 := generatorBlock b2.1 b2.2.1
  let cfg := if variants = [] then b3.1 else { b3.1 with variants := some (joinWords variants) }
  mergeAfterBlocks tok env cfg b1.2.2 b2.2.2 b3.2.2 b3.2.1 st

/-- The Requirement Merger (`handle_variants`, lines 152-266),
parameterized by the external token source `tok`. -/
def handle_variants (tok : Str → List Token) (env : Env) (project_cfg : ProjectConfig)
    (variants : List Str) : Except Err ProjectConfig :=
  let variant_str := joinWords variants
  match walkTokens {} (tok variant_str) with
  | .error e => .error e
  | .ok st => mergeAfterWalk tok env project_cfg variants st

/-! ### The configuration store `update` (`mpd/config.py` lines 299-321) -/

/-- A stored project entry: the project configuration plus the optional
`status` / `installed` markers merged by `update`. -/
structure StoredEntry where
  cfg : ProjectConfig
  status : Option Str := none
  installed : Option Str := none
deriving DecidableEq, Repr

/-- The global configuration document (its `projects` mapping). -/
structure ConfigDoc where
  projects : List (Str × StoredEntry) := []
deriving DecidableEq, Repr

/-- Python truthiness of an optional string (`if status:` on line 312). -/
def truthyStr : Option Str → Bool
  | some s => !s.isEmpty
  | none => false

/-- The `upsert` operation (`update`, lines 299-321): build the entry for
the given project (merging truthy status/installed markers) and assign it
under the project's name; a missing document starts empty. -/
def update (doc : Option ConfigDoc) (project_config : ProjectConfig)
    (status : Option Str) (installed_at : Option Str) : ConfigDoc :=
  let config := match doc with
    | some c => c
    | none => {}
  let entry : StoredEntry :=
    { cfg := project_config,
      status := if truthyStr status then status else none,
      installed := if truthyStr installed_at then installed_at else none }
  { config with projects := dictInsert config.projects project_config.name entry }

end Mpd

namespace Mpd

/-! ### Basic association-list lemmas -/

/-- First-defined-wins choice on options (used to state lookup lemmas). -/
def orElseO : Option α → Option α → Option α
  | some v, _ => some v
  | none, b => b

@[simp] theorem orElseO_some (v : α) (b : Option α) : orElseO (some v) b = some v := rfl

@[simp] theorem orElseO_none (b : Option α) : orElseO none b = b := rfl

theorem alookup_dictInsert_self [DecidableEq κ] (m : List (κ × α)) (k : κ) (v : α) :
    alookup k (dictInsert m k v) = some v := by
  induction m with
  | nil => simp [dictInsert, alookup]
  | cons p m ih =>
    obtain ⟨a, b⟩ := p
    by_cases hp : a = k
    · subst hp
      simp [dictInsert, alookup]
    · simp [dictInsert, hp, alookup, ih]

theorem alookup_dictInsert_ne [DecidableEq κ] (m : List (κ × α)) (k k' : κ) (v : α)
    (h : k' ≠ k) : alookup k' (dictInsert m k v) = alookup k' m := by
  induction m with
  | nil => simp [dictInsert, alookup, Ne.symm h]
  | cons p m ih =>
    obtain ⟨a, b⟩ := p
    by_cases hp : a = k
    · subst hp
      simp [dictInsert, alookup, Ne.symm h]
    · simp [dictInsert, hp, alookup, ih]

theorem dictPop_fst [DecidableEq κ] (k : κ) (m : List (κ × α)) :
    (dictPop k m).1 = alookup k m := by
  induction m with
  | nil => simp [dictPop, alookup]
  | cons p m ih =>
    obtain ⟨a, b⟩ := p
    by_cases hp : a = k
    · subst hp
      simp [dictPop, alookup]
    · simp [dictPop, hp, alookup, ih]

theorem alookup_dictPop_snd_ne [DecidableEq κ] (k k' : κ) (m : List (κ × α)) (h : k' ≠ k) :
    alookup k' (dictPop k m).2 = alookup k' m := by
  induction m with
  | nil => simp [dictPop]
  | cons p m ih =>
    obtain ⟨a, b⟩ := p
    by_cases hp : a = k
    · subst hp
      simp [dictPop, alookup, Ne.symm h]
    · simp [dictPop, hp, alookup, ih]

theorem mem_dictPop_snd [DecidableEq κ] (k k' : κ) (x : α) (m : List (κ × α))
    (hmem : (k', x) ∈ m) (h : k' ≠ k) : (k', x) ∈ (dictPop k m).2 := by
  induction m with
  | nil => simp at hmem
  | cons p m ih =>
    obtain ⟨a, b⟩ := p
    by_cases hp : a = k
    · subst hp
      simp only [dictPop, if_pos rfl]
      rcases List.mem_cons.1 hmem with h1 | h1
      · exact absurd (congrArg Prod.fst h1) h
      · exact h1
    · simp only [dictPop, if_neg hp]
      rcases List.mem_cons.1 hmem with h1 | h1
      · exact List.mem_cons.2 (Or.inl h1)
      · exact List.mem_cons.2 (Or.inr (ih h1))

theorem mem_of_alookup_eq_some [DecidableEq κ] {k : κ} {v : α} {m : List (κ × α)}
    (h : alookup k m = some v) : (k, v) ∈ m := by
  induction m with
  | nil => simp [alookup] at h
  | cons p m ih =>
    obtain ⟨a, b⟩ := p
    by_cases hp : a = k
    · subst hp
      simp only [alookup, if_pos rfl] at h
      cases h
      exact List.mem_cons_self _ _
    · simp only [alookup, hp, if_neg hp] at h
      exact List.mem_cons.2 (Or.inr (ih h))

theorem alookup_isSome_of_mem_keys [DecidableEq κ] {k : κ} {m : List (κ × α)}
    (h : k ∈ m.map Prod.fst) : (alookup k m).isSome := by
  induction m with
  | nil => simp at h
  | cons p m ih =>
    obtain ⟨a, b⟩ := p
    by_cases hp : a = k
    · simp [alookup, hp]
    · have h' : k ∈ m.map Prod.fst := by
        rcases List.mem_map.1 h with ⟨q, hq, hqk⟩
        rcases List.mem_cons.1 hq with h1 | h1
        · exact absurd (by rw [h1] at hqk; exact hqk) hp
        · exact List.mem_map.2 ⟨q, h1, hqk⟩
      simpa [alookup, hp] using ih h'

theorem alookup_dictInsert_isSome [DecidableEq κ] {m : List (κ × α)} {k k' : κ} {v : α}
    (h : (alookup k' (dictInsert m k v)).isSome) :
    k' = k ∨ (alookup k' m).isSome := by
  by_cases hk : k' = k
  · exact Or.inl hk
  · rw [alookup_dictInsert_ne m k k' v hk] at h
    exact Or.inr h

theorem alookup_append [DecidableEq κ] (a b : List (κ × α)) (k : κ) :
    alookup k (a ++ b) = orElseO (alookup k a) (alookup k b) := by
  induction a with
  | nil => simp [alookup]
  | cons p a ih =>
    obtain ⟨x, y⟩ := p
    by_cases hp : x = k
    · simp [alookup, hp]
    · simp [alookup, hp, ih]

/-- Repeated dict insertion models a sequence of Python dict
assignments. -/
def foldInsert [DecidableEq κ] (m : List (κ × α)) (l : List (κ × α)) : List (κ × α) :=
  l.foldl (fun acc nv => dictInsert acc nv.1 nv.2) m

theorem dictInsert_dictInsert [DecidableEq κ] (m : List (κ × α)) (k : κ) (v v' : α) :
    dictInsert (dictInsert m k v) k v' = dictInsert m k v' := by
  induction m with
  | nil => simp [dictInsert]
  | cons p m ih =>
    obtain ⟨a, b⟩ := p
    by_cases hp : a = k
    · subst hp
      simp [dictInsert]
    · simp [dictInsert, hp, ih]

theorem alookup_foldInsert [DecidableEq κ] (l : List (κ × α)) (m : List (κ × α)) (k : κ) :
    alookup k (foldInsert m l) = orElseO (alookup k l.reverse) (alookup k m) := by
  induction l generalizing m with
  | nil => simp [foldInsert, alookup]
  | cons x l ih =>
    have step : foldInsert m (x :: l) = foldInsert (dictInsert m x.1 x.2) l := rfl
    rw [step, ih]
    have hrev : (x :: l).reverse = l.reverse ++ [x] := by simp
    rw [hrev, alookup_append]
    cases hl : alookup k l.reverse with
    | some v => rfl
    | none =>
      obtain ⟨a, b⟩ := x
      by_cases hk : a = k
      · subst hk
        simp [alookup, alookup_dictInsert_self]
      · have hk' : k ≠ a := fun h => hk h.symm
        simp [alookup, hk, alookup_dictInsert_ne m a k b hk']

theorem orElseO_none_right (a : Option α) : orElseO a none = a := by
  cases a <;> rfl

theorem dictInsert_lookup_self [DecidableEq κ] (m : List (κ × α)) (k : κ) (v : α)
    (h : alookup k m = some v) : dictInsert m k v = m := by
  induction m with
  | nil => simp [alookup] at h
  | cons p m ih =>
    obtain ⟨a, b⟩ := p
    by_cases hp : a = k
    · subst hp
      simp only [alookup, if_pos rfl] at h
      cases h
      simp [dictInsert]
    · simp only [alookup, if_neg hp] at h
      simp [dictInsert, hp, ih h]

/-! ### Walk lemmas -/

/-- The token kinds the Variant Classifier supports. -/
def variantKind : TokenType → Bool
  | .COMPILER => true
  | .COMPILER_AND_VERSION => true
  | .VERSION => true
  | .BOOL_VARIANT => true
  | .PROPAGATED_BOOL_VARIANT => true
  | .KEY_VALUE_PAIR => true
  | .PROPAGATED_KEY_VALUE_PAIR => true
  | _ => false

/-- The token kinds the walk consumes structurally (lines 165-183),
without invoking the classifier. -/
def structuralKind : TokenType → Bool
  | .DEPENDENCY => true
  | .START_EDGE_PROPERTIES => true
  | .END_EDGE_PROPERTIES => true
  | .UNQUALIFIED_PACKAGE_NAME => true
  | _ => false

/-- Classify a whole token list in order. -/
def classifyAll : List Token → Except Err (List (Str × VariantPair))
  | [] => .ok []
  | t :: ts =>
    match handle_variant t with
    | .error e => .error e
    | .ok nv =>
      match classifyAll ts with
      | .error e => .error e
      | .ok l => .ok (nv :: l)

theorem walkStep_variant (st : WalkState) (t : Token) (h : variantKind t.kind = true) :
    walkStep st t =
      match handle_variant t with
      | .error e => .error e
      | .ok nv =>
        if st.virtual_dependency then .ok { st with virtual_package := some nv.2.value }
        else .ok (writeVariant st nv.1 nv.2) := by
  unfold walkStep
  cases hk : t.kind <;> first | rfl | (rw [hk] at h; exact absurd h (by simp [variantKind]))

theorem walkTokens_general (ts : List Token) :
    ∀ (l : List (Str × VariantPair)) (st : WalkState),
      classifyAll ts = .ok l → (∀ t ∈ ts, variantKind t.kind = true) →
      st.scope = .general → st.virtual_dependency = false →
      walkTokens st ts = .ok { st with general_variant_map := foldInsert st.general_variant_map l } := by
  induction ts with
  | nil =>
    intro l st hc _ _ _
    simp only [classifyAll] at hc
    cases hc
    rfl
  | cons t ts ih =>
    intro l st hc hk hsc hvd
    have hkt : variantKind t.kind = true := hk t (List.mem_cons_self _ _)
    simp only [classifyAll] at hc
    cases h1 : handle_variant t with
    | error e => rw [h1] at hc; cases hc
    | ok nv =>
      rw [h1] at hc
      cases h2 : classifyAll ts with
      | error e => rw [h2] at hc; cases hc
      | ok l' =>
        rw [h2] at hc
        cases hc
        have hstep : walkStep st t = .ok (writeVariant st nv.1 nv.2) := by
          rw [walkStep_variant st t hkt, h1]
          simp [hvd]
        have hwv : writeVariant st nv.1 nv.2 = { st with general_variant_map := dictInsert st.general_variant_map nv.1 nv.2 } := by
          unfold writeVariant
          rw [hsc]
        simp only [walkTokens, hstep, hwv]
        rw [ih l' { st with general_variant_map := dictInsert st.general_variant_map nv.1 nv.2 } h2 (fun u hu => hk u (List.mem_cons_of_mem _ hu)) hsc hvd]
        rfl

theorem walkTokens_pkg (p : Str) (ts : List Token) :
    ∀ (l : List (Str × VariantPair)) (st : WalkState) (im : List (Str × VariantPair)),
      classifyAll ts = .ok l → (∀ t ∈ ts, variantKind t.kind = true) →
      st.scope = .pkg p → st.virtual_dependency = false →
      alookup p st.package_variant_map = some im →
      walkTokens st ts = .ok { st with package_variant_map := dictInsert st.package_variant_map p (foldInsert im l) } := by
  induction ts with
  | nil =>
    intro l st im hc _ _ _ him
    simp only [classifyAll] at hc
    cases hc
    simp only [walkTokens, foldInsert, List.foldl_nil]
    rw [dictInsert_lookup_self _ _ _ him]
  | cons t ts ih =>
    intro l st im hc hk hsc hvd him
    have hkt : variantKind t.kind = true := hk t (List.mem_cons_self _ _)
    simp only [classifyAll] at hc
    cases h1 : handle_variant t with
    | error e => rw [h1] at hc; cases hc
    | ok nv =>
      rw [h1] at hc
      cases h2 : classifyAll ts with
      | error e => rw [h2] at hc; cases hc
      | ok l' =>
        rw [h2] at hc
        cases hc
        have hstep : walkStep st t = .ok (writeVariant st nv.1 nv.2) := by
          rw [walkStep_variant st t hkt, h1]
          simp [hvd]
        have hwv : writeVariant st nv.1 nv.2 = { st with package_variant_map := dictInsert st.package_variant_map p (dictInsert im nv.1 nv.2) } := by
          unfold writeVariant
          rw [hsc]
          simp [him]
        simp only [walkTokens, hstep, hwv]
        rw [ih l' { st with package_variant_map := dictInsert st.package_variant_map p (dictInsert im nv.1 nv.2) } (dictInsert im nv.1 nv.2) h2 (fun u hu => hk u (List.mem_cons_of_mem _ hu)) hsc hvd (by simp [alookup_dictInsert_self])]
        simp only [dictInsert_dictInsert]
        rfl

theorem walkTokens_dep (p : Str) (ts : List Token) :
    ∀ (l : List (Str × VariantPair)) (st : WalkState) (im : List (Str × VariantPair)),
      classifyAll ts = .ok l → (∀ t ∈ ts, variantKind t.kind = true) →
      st.scope = .dep p → st.virtual_dependency = false →
      alookup p st.dependency_variant_map = some im →
      walkTokens st ts = .ok { st with dependency_variant_map := dictInsert st.dependency_variant_map p (foldInsert im l) } := by
  induction ts with
  | nil =>
    intro l st im hc _ _ _ him
    simp only [classifyAll] at hc
    cases hc
    simp only [walkTokens, foldInsert, List.foldl_nil]
    rw [dictInsert_lookup_self _ _ _ him]
  | cons t ts ih =>
    intro l st im hc hk hsc hvd him
    have hkt : variantKind t.kind = true := hk t (List.mem_cons_self _ _)
    simp only [classifyAll] at hc
    cases h1 : handle_variant t with
    | error e => rw [h1] at hc; cases hc
    | ok nv =>
      rw [h1] at hc
      cases h2 : classifyAll ts with
      | error e => rw [h2] at hc; cases hc
      | ok l' =>
        rw [h2] at hc
        cases hc
        have hstep : walkStep st t = .ok (writeVariant st nv.1 nv.2) := by
          rw [walkStep_variant st t hkt, h1]
          simp [hvd]
        have hwv : writeVariant st nv.1 nv.2 = { st with dependency_variant_map := dictInsert st.dependency_variant_map p (dictInsert im nv.1 nv.2) } := by
          unfold writeVariant
          rw [hsc]
          simp [him]
        simp only [walkTokens, hstep, hwv]
        rw [ih l' { st with dependency_variant_map := dictInsert st.dependency_variant_map p (dictInsert im nv.1 nv.2) } (dictInsert im nv.1 nv.2) h2 (fun u hu => hk u (List.mem_cons_of_mem _ hu)) hsc hvd (by simp [alookup_dictInsert_self])]
        simp only [dictInsert_dictInsert]
        rfl

theorem walkStep_unclassifiable (st : WalkState) (t : Token)
    (h1 : variantKind t.kind = false) (h2 : structuralKind t.kind = false) :
    walkStep st t = .error (Err.unsupportedToken t.value) := by
  have hv : handle_variant t = .error (Err.unsupportedToken t.value) := by
    unfold handle_variant
    cases hk : t.kind <;>
      first
        | rfl
        | (rw [hk] at h1; exact Bool.noConfusion h1)
        | (rw [hk] at h2; exact Bool.noConfusion h2)
  unfold walkStep
  cases hk : t.kind <;>
    first
      | (rw [hk] at h1; exact Bool.noConfusion h1)
      | (rw [hk] at h2; exact Bool.noConfusion h2)
      | (rw [hv])

theorem walkTokens_error_of_mem (t : Token)
    (h1 : variantKind t.kind = false) (h2 : structuralKind t.kind = false) :
    ∀ (ts : List Token), t ∈ ts → ∀ st, ∃ e, walkTokens st ts = .error e := by
  intro ts
  induction ts with
  | nil => intro hm; cases hm
  | cons x ts ih =>
    intro hm st
    rcases List.mem_cons.1 hm with rfl | hmem
    · exact ⟨Err.unsupportedToken t.value, by simp only [walkTokens, walkStep_unclassifiable st t h1 h2]⟩
    · cases hx : walkStep st x with
      | error e => exact ⟨e, by simp only [walkTokens, hx]⟩
      | ok st' =>
        obtain ⟨e, he⟩ := ih hmem st'
        exact ⟨e, by simp only [walkTokens, hx, he]⟩

/-! ### Claim theorems: C2, C3, C5, C8, C9, C10 -/

/-- The source tree / catalog of the C2 scenario: a single directory
`foo`, a known package supporting `cxxstd` and `generator`. -/
def c2Pkg : PkgDesc := ⟨none, [kcxxstd, kgenerator]⟩

def c2Env : Env := ⟨fun _ => ["foo".toList], fun p => if p = "foo".toList then some c2Pkg else none⟩

def c2Cfg : ProjectConfig := { name := "proj".toList, source := "srcs".toList }

/-- C2: the spec scenario `source tree = {foo}`, variant input
`"cxxstd=20 ^dep@1.2"` is expected to yield
`packages["foo"].require == ["@develop", "cxxstd=20", "generator=make"]`
and `dependencies["dep"].require == ["@1.2"]`.  The code instead raises
`TypeError` in the dependency loop (lines 256-258: it iterates the keys
of the per-dependency dict and subscripts those strings with
`["variant"]`), so the merger crashes and returns no configuration at
all. -/
theorem c2_theorem :
    handle_variants sptokenize c2Env c2Cfg ["cxxstd=20 ^dep@1.2".toList] =
      .error Err.typeError := rfl

/-- The source tree of the C3 failing input: one subdirectory that is not
a known package. -/
def c3Env : Env := ⟨fun _ => ["apkg".toList], fun _ => none⟩

/-- C3: the package existence check is claimed to complete the full scan
and fail with one batched report of all unknown directories.  Because the
`except UnknownPackageError` branch of lines 136-139 has no `continue`,
line 140 still runs and references `pkg_cls`, which is unbound when the
first scanned directory is unknown: the scan crashes with
`UnboundLocalError` instead of producing the batched report. -/
theorem c3_theorem :
    spack_packages c3Env "srcs".toList = .error Err.unboundLocal ∧
      ∀ ps, spack_packages c3Env "srcs".toList ≠ .error (Err.unknownPackages ps) := by
  refine ⟨rfl, ?_⟩
  intro ps h
  exact Err.noConfusion (Except.error.inj h)

/-- C5: in a serialized requirement list, `version` comes first,
`compiler` second, and every other entry after both. -/
theorem c5_theorem (m : List (Str × Str)) (v c : Str)
    (hv : alookup kversion m = some v) (hc : alookup kcompiler m = some c) :
    ∃ rest, ordered_requirement_list m = v :: c :: rest ∧
      ∀ k x, (k, x) ∈ m → k ≠ kversion → k ≠ kcompiler → x ∈ rest := by
  have h1 : (dictPop kversion m).1 = some v := by rw [dictPop_fst]; exact hv
  have h2 : (dictPop kcompiler (dictPop kversion m).2).1 = some c := by
    rw [dictPop_fst, alookup_dictPop_snd_ne _ _ _ (by decide)]
    exact hc
  refine ⟨((dictPop kcompiler (dictPop kversion m).2).2).map Prod.snd, ?_, ?_⟩
  · simp only [ordered_requirement_list]
    rw [h1, h2]
    rfl
  · intro k x hmem hkv hkc
    exact List.mem_map.2 ⟨(k, x), mem_dictPop_snd _ _ _ _ (mem_dictPop_snd _ _ _ _ hmem hkv) hkc, rfl⟩

/-- A requirement map exercising `c5_theorem`. -/
def c5Map : List (Str × Str) :=
  [(kcxxstd, "cxxstd=17".toList), (kversion, "@develop".toList), (kcompiler, "%gcc".toList)]

/-- Witness for C5 at a concrete requirement map. -/
theorem c5_witness :
    ∃ rest, ordered_requirement_list c5Map = "@develop".toList :: "%gcc".toList :: rest ∧
      ∀ k x, (k, x) ∈ c5Map → k ≠ kversion → k ≠ kcompiler → x ∈ rest :=
  c5_theorem c5Map "@develop".toList "%gcc".toList (by decide) (by decide)

/-- C9: `update` rewrites only the entry keyed by the project's name;
every other project's entry in the document is unchanged. -/
theorem c9_theorem (doc : ConfigDoc) (project_config : ProjectConfig)
    (status installed_at : Option Str) (other : Str) (h : other ≠ project_config.name) :
    alookup other (update (some doc) project_config status installed_at).projects =
      alookup other doc.projects := by
  simp only [update]
  exact alookup_dictInsert_ne _ _ _ _ h

def c9CfgA : ProjectConfig := { name := "aproj".toList, source := "sa".toList }

def c9CfgB : ProjectConfig := { name := "bproj".toList, source := "sb".toList }

def c9Doc : ConfigDoc :=
  { projects := [("aproj".toList, { cfg := c9CfgA }), ("bproj".toList, { cfg := c9CfgB })] }

/-- Witness for C9: updating project `aproj` leaves `bproj`'s entry
unchanged. -/
theorem c9_witness :
    alookup "bproj".toList (update (some c9Doc) c9CfgA (some "ready".toList) none).projects =
      alookup "bproj".toList c9Doc.projects :=
  c9_theorem c9Doc c9CfgA (some "ready".toList) none "bproj".toList (by decide)

/-- C10: within a single scope, when several tokens classify to the same
name, the scope map binds that name to the pair of the last such token
(`alookup` on the reversed classification list), for the general scope,
a package scope and a dependency scope. -/
theorem c10_theorem (ts : List Token) (l : List (Str × VariantPair)) (p n : Str)
    (hl : classifyAll ts = .ok l) (hk : ∀ t ∈ ts, variantKind t.kind = true) :
    (∃ st, walkTokens {} ts = .ok st ∧
      alookup n st.general_variant_map = alookup n l.reverse) ∧
    (∃ st, walkTokens {} (Token.mk .UNQUALIFIED_PACKAGE_NAME p :: ts) = .ok st ∧
      ∃ im, alookup p st.package_variant_map = some im ∧
        alookup n im = alookup n l.reverse) ∧
    (∃ st, walkTokens {} (Token.mk .DEPENDENCY ['^'] :: Token.mk .UNQUALIFIED_PACKAGE_NAME p :: ts) = .ok st ∧
      ∃ im, alookup p st.dependency_variant_map = some im ∧
        alookup n im = alookup n l.reverse) := by
  have hfold : alookup n (foldInsert [] l) = alookup n l.reverse := by
    rw [alookup_foldInsert]
    simp [alookup, orElseO_none_right]
  refine ⟨⟨_, walkTokens_general ts l {} hl hk rfl rfl, ?_⟩, ?_, ?_⟩
  · exact hfold
  · have hstep : walkTokens {} (Token.mk .UNQUALIFIED_PACKAGE_NAME p :: ts) =
        walkTokens { package_variant_map := [(p, [])], scope := Scope.pkg p } ts := rfl
    rw [hstep,
      walkTokens_pkg p ts l { package_variant_map := [(p, [])], scope := Scope.pkg p } []
        hl hk rfl rfl (by simp [alookup])]
    exact ⟨_, rfl, foldInsert [] l, by simp [alookup_dictInsert_self], hfold⟩
  · have hstep : walkTokens {} (Token.mk .DEPENDENCY ['^'] :: Token.mk .UNQUALIFIED_PACKAGE_NAME p :: ts) =
        walkTokens { dependency_variant_map := [(p, [])], dependency := true, scope := Scope.dep p } ts := rfl
    rw [hstep,
      walkTokens_dep p ts l { dependency_variant_map := [(p, [])], dependency := true, scope := Scope.dep p } []
        hl hk rfl rfl (by simp [alookup])]
    exact ⟨_, rfl, foldInsert [] l, by simp [alookup_dictInsert_self], hfold⟩

def c10Ts : List Token :=
  [⟨.KEY_VALUE_PAIR, "cxxstd=17".toList⟩, ⟨.KEY_VALUE_PAIR, "cxxstd=20".toList⟩]

def c10L : List (Str × VariantPair) :=
  [(kcxxstd, ⟨.s "17".toList, "cxxstd=17".toList⟩), (kcxxstd, ⟨.s "20".toList, "cxxstd=20".toList⟩)]

/-- Witness for C10: two `cxxstd` tokens; the later (`cxxstd=20`) wins in
all three scopes. -/
theorem c10_witness :
    (∃ st, walkTokens {} c10Ts = .ok st ∧
      alookup kcxxstd st.general_variant_map = alookup kcxxstd c10L.reverse) ∧
    (∃ st, walkTokens {} (Token.mk .UNQUALIFIED_PACKAGE_NAME "foo".toList :: c10Ts) = .ok st ∧
      ∃ im, alookup "foo".toList st.package_variant_map = some im ∧
        alookup kcxxstd im = alookup kcxxstd c10L.reverse) ∧
    (∃ st, walkTokens {} (Token.mk .DEPENDENCY ['^'] :: Token.mk .UNQUALIFIED_PACKAGE_NAME "foo".toList :: c10Ts) = .ok st ∧
      ∃ im, alookup "foo".toList st.dependency_variant_map = some im ∧
        alookup kcxxstd im = alookup kcxxstd c10L.reverse) :=
  c10_theorem c10Ts c10L "foo".toList kcxxstd rfl (by decide)

/-- The C8 counterexample inputs: a variant string consisting of the
single dependency sigil. -/
def c8Env : Env := ⟨fun _ => [], fun _ => none⟩

def c8Cfg : ProjectConfig := { name := "p8".toList, source := "s8".toList }

/-- C8 counterexample: a `DEPENDENCY` token is not one of the seven
supported variant kinds and the classifier dies on it, yet a merger run
whose token stream contains it completes successfully — the walk consumes
it structurally, so the run does not abort as the claim states. -/
theorem c8_counterexample :
    handle_variant ⟨.DEPENDENCY, ['^']⟩ = .error (Err.unsupportedToken ['^']) ∧
      variantKind TokenType.DEPENDENCY = false ∧
      (⟨.DEPENDENCY, ['^']⟩ : Token) ∈ sptokenize (joinWords ["^".toList]) ∧
      (handle_variants sptokenize c8Env c8Cfg ["^".toList]).isOk = true := by
  exact ⟨rfl, rfl, by decide, rfl⟩

/-- C8 (amended): the classifier fails fatally on any kind outside the
seven supported variant kinds, and a merger run aborts whenever its token
stream contains such a token in a classification position — that is, a
token that is also not one of the four structural marker kinds
(dependency, edge start/end, package name), which the walk consumes
without classifying. -/
theorem c8_theorem (tok : Str → List Token) (env : Env) (cfg : ProjectConfig)
    (vars : List Str) (t : Token) (hm : t ∈ tok (joinWords vars))
    (h1 : variantKind t.kind = false) (h2 : structuralKind t.kind = false) :
    handle_variant t = .error (Err.unsupportedToken t.value) ∧
      ∀ out : ProjectConfig, handle_variants tok env cfg vars ≠ .ok out := by
  constructor
  · unfold handle_variant
    cases hk : t.kind <;>
      first
        | rfl
        | (rw [hk] at h1; exact Bool.noConfusion h1)
        | (rw [hk] at h2; exact Bool.noConfusion h2)
  · intro out hok
    obtain ⟨e, he⟩ := walkTokens_error_of_mem t h1 h2 _ hm {}
    simp only [handle_variants] at hok
    rw [he] at hok
    cases hok

def c8BadTok : Str → List Token := fun _ => [⟨.GIT_VERSION, "@git.abc".toList⟩]

/-- Witness for C8 at a concrete stream containing a `GIT_VERSION`
token. -/
theorem c8_witness :
    handle_variant ⟨.GIT_VERSION, "@git.abc".toList⟩ =
        .error (Err.unsupportedToken "@git.abc".toList) ∧
      ∀ out : ProjectConfig, handle_variants c8BadTok c8Env c8Cfg [] ≠ .ok out :=
  c8_theorem c8BadTok c8Env c8Cfg [] ⟨.GIT_VERSION, "@git.abc".toList⟩ (by decide) rfl rfl

/-! ### Inversion lemmas for the merger stages -/

theorem compilerBlock_eq (cfg : ProjectConfig) (g : List (Str × VariantPair)) :
    ∃ c, compilerBlock cfg g = ({ cfg with compiler := some c }, (dictPop kcompiler g).2, c) := by
  obtain ⟨n, so, co, cx0, ge, va, pa, de⟩ := cfg
  simp only [compilerBlock]
  cases h : (dictPop kcompiler g).1 with
  | some c => exact ⟨some c, rfl⟩
  | none =>
    cases co with
    | some c => exact ⟨c, rfl⟩
    | none => exact ⟨none, rfl⟩

theorem cxxstdBlock_eq (cfg : ProjectConfig) (g : List (Str × VariantPair)) :
    ∃ v, cxxstdBlock cfg g = ({ cfg with cxxstd := some v }, (dictPop kcxxstd g).2, v) := by
  obtain ⟨n, so, co, cx0, ge, va, pa, de⟩ := cfg
  simp only [cxxstdBlock]
  cases h : (dictPop kcxxstd g).1 with
  | some v => exact ⟨v, rfl⟩
  | none =>
    cases cx0 with
    | some v => exact ⟨v, rfl⟩
    | none => exact ⟨DEFAULT_CXXSTD, rfl⟩

theorem generatorBlock_eq (cfg : ProjectConfig) (g : List (Str × VariantPair)) :
    ∃ v, generatorBlock cfg g = ({ cfg with generator := some v }, (dictPop kgenerator g).2, v) := by
  obtain ⟨n, so, co, cx0, ge, va, pa, de⟩ := cfg
  simp only [generatorBlock]
  cases h : (dictPop kgenerator g).1 with
  | some v => exact ⟨v, rfl⟩
  | none =>
    cases ge with
    | some v => exact ⟨v, rfl⟩
    | none => exact ⟨DEFAULT_GENERATOR, rfl⟩

/-- The general map left over after the three extractions. -/
def gmapAfterBlocks (g : List (Str × VariantPair)) : List (Str × VariantPair) :=
  (dictPop kgenerator (dictPop kcxxstd (dictPop kcompiler g).2).2).2

/-- The project configuration after the three extractions and the
`variants` assignment. -/
def cfgAfterBlocks (cfg : ProjectConfig) (vars : List Str) (c : Option VariantPair)
    (cx gen : VariantPair) : ProjectConfig :=
  if vars = [] then { cfg with compiler := some c, cxxstd := some cx, generator := some gen }
  else { cfg with compiler := some c, cxxstd := some cx, generator := some gen,
                  variants := some (joinWords vars) }

theorem cfgAfterBlocks_source (cfg : ProjectConfig) (vars : List Str) (c : Option VariantPair)
    (cx gen : VariantPair) : (cfgAfterBlocks cfg vars c cx gen).source = cfg.source := by
  unfold cfgAfterBlocks
  by_cases h : vars = [] <;> simp [h]

theorem cfgAfterBlocks_packages (cfg : ProjectConfig) (vars : List Str) (c : Option VariantPair)
    (cx gen : VariantPair) : (cfgAfterBlocks cfg vars c cx gen).packages = cfg.packages := by
  unfold cfgAfterBlocks
  by_cases h : vars = [] <;> simp [h]

theorem mergeAfterWalk_eq (tok : Str → List Token) (env : Env) (cfg : ProjectConfig)
    (vars : List Str) (st : WalkState) :
    ∃ c cx gen,
      mergeAfterWalk tok env cfg vars st =
        mergeAfterBlocks tok env (cfgAfterBlocks cfg vars c cx gen) c cx gen
          (gmapAfterBlocks st.general_variant_map) st := by
  obtain ⟨c, hc⟩ := compilerBlock_eq cfg st.general_variant_map
  obtain ⟨cx, hcx⟩ := cxxstdBlock_eq { cfg with compiler := some c }
    (dictPop kcompiler st.general_variant_map).2
  obtain ⟨gen, hgen⟩ := generatorBlock_eq
    { cfg with compiler := some c, cxxstd := some cx }
    (dictPop kcxxstd (dictPop kcompiler st.general_variant_map).2).2
  refine ⟨c, cx, gen, ?_⟩
  simp only [mergeAfterWalk]
  rw [hc]
  dsimp only
  rw [hcx]
  dsimp only
  rw [hgen]
  dsimp only
  unfold cfgAfterBlocks gmapAfterBlocks
  rfl

theorem handle_variants_ok_elim {tok : Str → List Token} {env : Env} {cfg : ProjectConfig}
    {vars : List Str} {out : ProjectConfig}
    (h : handle_variants tok env cfg vars = .ok out) :
    ∃ st, walkTokens {} (tok (joinWords vars)) = .ok st ∧
      mergeAfterWalk tok env cfg vars st = .ok out := by
  simp only [handle_variants] at h
  cases hw : walkTokens {} (tok (joinWords vars)) with
  | error e => rw [hw] at h; cases h
  | ok st =>
    rw [hw] at h
    exact ⟨st, rfl, h⟩

/-- The dependencies map written back on line 265 (the line-262 virtual
provider entry folded in). -/
def mergedDeps (cfg : ProjectConfig) (st : WalkState) : List (Str × DepEntry) :=
  if st.virtual_dependencies = [] then cfg.dependencies
  else dictInsert cfg.dependencies kall (DepEntry.providers st.virtual_dependencies)

theorem mergeAfterBlocks_ok_elim {tok : Str → List Token} {env : Env} {cfg : ProjectConfig}
    {c : Option VariantPair} {cx gen : VariantPair} {gmap : List (Str × VariantPair)}
    {st : WalkState} {out : ProjectConfig}
    (h : mergeAfterBlocks tok env cfg c cx gen gmap st = .ok out) :
    ∃ pkgs packages,
      spack_packages env cfg.source = .ok pkgs ∧
      processPackages tok c cx gen gmap st.package_variant_map
        (cfg.packages.filter (fun kv => (alookup kv.1 pkgs).isSome)) pkgs = .ok packages ∧
      st.dependency_variant_map = [] ∧
      out = { cfg with packages := packages, dependencies := mergedDeps cfg st } := by
  unfold mergeAfterBlocks at h
  cases h1 : spack_packages env cfg.source with
  | error e => rw [h1] at h; cases h
  | ok pkgs =>
    rw [h1] at h
    cases h2 : processPackages tok c cx gen gmap st.package_variant_map
        (cfg.packages.filter (fun kv => (alookup kv.1 pkgs).isSome)) pkgs with
    | error e => simp only [h2] at h; cases h
    | ok packages =>
      simp only [h2] at h
      by_cases hd : st.dependency_variant_map = []
      · rw [if_pos hd] at h
        refine ⟨pkgs, packages, rfl, h2, hd, ?_⟩
        rw [← Except.ok.inj h]
        unfold mergedDeps
        rfl
      · rw [if_neg hd] at h
        cases h

theorem processPackage_ok_shape {tok : Str → List Token} {c : Option VariantPair}
    {cx gen : VariantPair} {gmap : List (Str × VariantPair)}
    {pmap : List (Str × List (Str × VariantPair))} {packages : List (Str × List Str)}
    {p : Str} {pkg : PkgDesc} {packages' : List (Str × List Str)}
    (h : processPackage tok c cx gen gmap pmap packages p pkg = .ok packages') :
    ∃ r5, packages' = dictInsert packages p
      (ordered_requirement_list
        (foldInsert r5 (((alookup p pmap).getD []).map (fun kv => (kv.1, kv.2.variant))))) := by
  simp only [processPackage] at h
  cases hr : reparseFold (tok (joinWords ((alookup p packages).getD []))) [] with
  | error e => rw [hr] at h; cases h
  | ok m0 =>
    rw [hr] at h
    exact ⟨_, (Except.ok.inj h).symm⟩

theorem processPackages_keys (tok : Str → List Token) (c : Option VariantPair)
    (cx gen : VariantPair) (gmap : List (Str × VariantPair))
    (pmap : List (Str × List (Str × VariantPair))) :
    ∀ (pkgs : List (Str × PkgDesc)) (packages out : List (Str × List Str)),
      processPackages tok c cx gen gmap pmap packages pkgs = .ok out →
      ∀ k, (alookup k out).isSome → (alookup k packages).isSome ∨ k ∈ pkgs.map Prod.fst := by
  intro pkgs
  induction pkgs with
  | nil =>
    intro packages out h k hk
    simp only [processPackages] at h
    cases h
    exact Or.inl hk
  | cons pp rest ih =>
    intro packages out h k hk
    simp only [processPackages] at h
    cases h1 : processPackage tok c cx gen gmap pmap packages pp.1 pp.2 with
    | error e => rw [h1] at h; cases h
    | ok packages' =>
      rw [h1] at h
      rcases ih packages' out h k hk with hs | hs
      · obtain ⟨L, hL⟩ := processPackage_ok_shape h1
        rw [hL] at hs
        rcases alookup_dictInsert_isSome hs with he | he
        · subst he
          exact Or.inr (by rw [List.map_cons]; exact List.mem_cons_self _ _)
        · exact Or.inl he
      · exact Or.inr (by rw [List.map_cons]; exact List.mem_cons_of_mem _ hs)

theorem of_alookup_filter_isSome [DecidableEq κ] {m : List (κ × α)} {f : κ × α → Bool} {k : κ}
    (h : (alookup k (m.filter f)).isSome) : ∃ v, (k, v) ∈ m ∧ f (k, v) = true := by
  cases hl : alookup k (m.filter f) with
  | none => rw [hl] at h; cases h
  | some v =>
    have hm := mem_of_alookup_eq_some hl
    have hmf := List.mem_filter.1 hm
    exact ⟨v, hmf.1, hmf.2⟩

/-- C7: after a successful merger run the `packages` map holds only keys
that are current known subdirectories of the source tree; entries whose
directory disappeared are pruned. -/
theorem c7_theorem {tok : Str → List Token} {env : Env} {cfg : ProjectConfig}
    {vars : List Str} {out : ProjectConfig} {pkgs : List (Str × PkgDesc)}
    (hrun : handle_variants tok env cfg vars = .ok out)
    (hp : spack_packages env cfg.source = .ok pkgs) :
    (∀ k, (alookup k out.packages).isSome → (alookup k pkgs).isSome) ∧
    (∀ k, alookup k pkgs = none → alookup k out.packages = none) := by
  obtain ⟨st, hwalk, hm⟩ := handle_variants_ok_elim hrun
  obtain ⟨c, cx, gen, heq⟩ := mergeAfterWalk_eq tok env cfg vars st
  rw [heq] at hm
  obtain ⟨pkgs', packages, hsp, hproc, hdep, hout⟩ := mergeAfterBlocks_ok_elim hm
  rw [cfgAfterBlocks_source, hp] at hsp
  cases Except.ok.inj hsp
  have hpk : out.packages = packages := by rw [hout]
  have hmain : ∀ k, (alookup k out.packages).isSome → (alookup k pkgs).isSome := by
    intro k hk
    rw [hpk] at hk
    rcases processPackages_keys tok c cx gen (gmapAfterBlocks st.general_variant_map)
        st.package_variant_map _ _ _ hproc k hk with hs | hs
    · rw [cfgAfterBlocks_packages] at hs
      obtain ⟨v, _, hf⟩ := of_alookup_filter_isSome hs
      simpa using hf
    · exact alookup_isSome_of_mem_keys hs
  refine ⟨hmain, ?_⟩
  intro k hnone
  cases hlo : alookup k out.packages with
  | none => rfl
  | some v =>
    have hms := hmain k (by rw [hlo]; rfl)
    rw [hnone] at hms
    cases hms

def c7Pkg : PkgDesc := ⟨none, []⟩

def c7Env : Env := ⟨fun _ => ["foo".toList], fun p => if p = "foo".toList then some c7Pkg else none⟩

/-- A prior configuration storing a package entry `gone` whose directory
no longer exists. -/
def c7Cfg : ProjectConfig :=
  { name := "proj7".toList, source := "srcs7".toList,
    packages := [("gone".toList, ["@develop".toList]), ("foo".toList, ["@develop".toList])] }

def c7Pkgs : List (Str × PkgDesc) := [("foo".toList, c7Pkg)]

/-- The configuration produced by the C7 witness run. -/
def c7Out : ProjectConfig :=
  { name := "proj7".toList, source := "srcs7".toList,
    compiler := some none, cxxstd := some DEFAULT_CXXSTD, generator := some DEFAULT_GENERATOR,
    packages := [("foo".toList, ["@develop".toList])], dependencies := [] }

/-- Witness for C7: the stale `gone` entry is pruned and every surviving
key is a known source-tree package. -/
theorem c7_witness :
    (∀ k, (alookup k c7Out.packages).isSome → (alookup k c7Pkgs).isSome) ∧
    (∀ k, alookup k c7Pkgs = none → alookup k c7Out.packages = none) :=
  @c7_theorem sptokenize c7Env c7Cfg [] c7Out c7Pkgs rfl rfl

/-! ### C1: package-scoped version/compiler overrides vs the forced values -/

theorem alookup_eq_none [DecidableEq κ] {k : κ} {m : List (κ × α)}
    (h : k ∉ m.map Prod.fst) : alookup k m = none := by
  induction m with
  | nil => rfl
  | cons p m ih =>
    obtain ⟨a, b⟩ := p
    rw [List.map_cons] at h
    have ha : ¬a = k := fun he => h (List.mem_cons_self _ _ |> (he ▸ ·))
    simp only [alookup, if_neg ha]
    exact ih (fun hm => h (List.mem_cons_of_mem _ hm))

theorem alookup_reverse_of_nodup [DecidableEq κ] {m : List (κ × α)}
    (hnd : (m.map Prod.fst).Nodup) (k : κ) : alookup k m.reverse = alookup k m := by
  induction m with
  | nil => rfl
  | cons p m ih =>
    obtain ⟨a, b⟩ := p
    rw [List.map_cons, List.nodup_cons] at hnd
    rw [List.reverse_cons, alookup_append]
    by_cases hk : a = k
    · subst hk
      rw [ih hnd.2, alookup_eq_none hnd.1]
      simp [alookup]
    · rw [ih hnd.2]
      simp only [alookup, if_neg hk]
      cases alookup k m <;> simp [alookup, hk]

theorem alookup_map_variant (im : List (Str × VariantPair)) (k : Str) :
    alookup k (im.map (fun kv => (kv.1, kv.2.variant))) =
      (alookup k im).map VariantPair.variant := by
  induction im with
  | nil => rfl
  | cons p im ih =>
    obtain ⟨a, b⟩ := p
    by_cases hk : a = k
    · simp [alookup, hk]
    · simp [alookup, hk, ih]

theorem alookup_version_foldInsert {r5 : List (Str × Str)} {im : List (Str × VariantPair)}
    {vp : VariantPair} {k : Str}
    (hnd : (im.map Prod.fst).Nodup) (hv : alookup k im = some vp) :
    alookup k (foldInsert r5 (im.map (fun kv => (kv.1, kv.2.variant)))) = some vp.variant := by
  rw [alookup_foldInsert]
  have hkeys : ((im.map (fun kv => (kv.1, kv.2.variant))).map Prod.fst).Nodup := by
    simpa [List.map_map, Function.comp] using hnd
  rw [alookup_reverse_of_nodup hkeys, alookup_map_variant, hv]
  rfl

theorem orl_version_first {m : List (Str × Str)} {v : Str}
    (h : alookup kversion m = some v) :
    ∃ rest, ordered_requirement_list m = v :: rest := by
  have h1 : (dictPop kversion m).1 = some v := by rw [dictPop_fst]; exact h
  refine ⟨(match (dictPop kcompiler (dictPop kversion m).2).1 with | some c => [c] | none => []) ++ ((dictPop kcompiler (dictPop kversion m).2).2).map Prod.snd, ?_⟩
  simp only [ordered_requirement_list]
  rw [h1]
  rfl

theorem processPackage_pkg_version {tok : Str → List Token} {c : Option VariantPair}
    {cx gen : VariantPair} {gmap : List (Str × VariantPair)}
    {pmap : List (Str × List (Str × VariantPair))} {packages : List (Str × List Str)}
    {p : Str} {pkg : PkgDesc} {packages' : List (Str × List Str)}
    {im : List (Str × VariantPair)} {vp : VariantPair}
    (h : processPackage tok c cx gen gmap pmap packages p pkg = .ok packages')
    (hin : alookup p pmap = some im) (hnd : (im.map Prod.fst).Nodup)
    (hv : alookup kversion im = some vp) :
    ∃ rest, alookup p packages' = some (vp.variant :: rest) := by
  obtain ⟨r5, hL⟩ := processPackage_ok_shape h
  rw [hL, alookup_dictInsert_self]
  have hlook : alookup kversion
      (foldInsert r5 (((alookup p pmap).getD []).map (fun kv => (kv.1, kv.2.variant)))) =
      some vp.variant := by
    rw [hin]
    exact alookup_version_foldInsert hnd hv
  obtain ⟨rest, hrest⟩ := orl_version_first hlook
  exact ⟨rest, by rw [hrest]⟩

theorem processPackages_pkg_version (tok : Str → List Token) (c : Option VariantPair)
    (cx gen : VariantPair) (gmap : List (Str × VariantPair))
    {pmap : List (Str × List (Str × VariantPair))} {p : Str}
    {im : List (Str × VariantPair)} {vp : VariantPair}
    (hin : alookup p pmap = some im) (hnd : (im.map Prod.fst).Nodup)
    (hv : alookup kversion im = some vp) :
    ∀ (pkgs : List (Str × PkgDesc)) (packages out : List (Str × List Str)),
      processPackages tok c cx gen gmap pmap packages pkgs = .ok out →
      (p ∈ pkgs.map Prod.fst ∨ ∃ l, alookup p packages = some (vp.variant :: l)) →
      ∃ l, alookup p out = some (vp.variant :: l) := by
  intro pkgs
  induction pkgs with
  | nil =>
    intro packages out h hc
    simp only [processPackages] at h
    cases h
    rcases hc with hmem | hstored
    · cases hmem
    · exact hstored
  | cons pp rest ih =>
    intro packages out h hc
    simp only [processPackages] at h
    cases h1 : processPackage tok c cx gen gmap pmap packages pp.1 pp.2 with
    | error e => rw [h1] at h; cases h
    | ok packages' =>
      rw [h1] at h
      by_cases hpp : pp.1 = p
      · subst hpp
        obtain ⟨l, hl⟩ := processPackage_pkg_version h1 hin hnd hv
        exact ih packages' out h (Or.inr ⟨l, hl⟩)
      · rcases hc with hmem | hstored
        · rw [List.map_cons] at hmem
          rcases List.mem_cons.1 hmem with he | hmem'
          · exact absurd he.symm hpp
          · exact ih packages' out h (Or.inl hmem')
        · obtain ⟨L, hL⟩ := processPackage_ok_shape h1
          refine ih packages' out h (Or.inr ?_)
          rw [hL, alookup_dictInsert_ne _ _ _ _ (fun he => hpp he.symm)]
          exact hstored

/-- C1 (amended): the forced `@develop` version and project compiler
override the previously stored requirements and general-scope settings,
but a package-scoped `version` (or `compiler`) override supplied in the
variant string is applied after the forcing (line 251) and therefore
wins: the stored requirement list starts with the package-scoped version
value, not `@develop`. -/
theorem c1_theorem {tok : Str → List Token} {env : Env} {cfg : ProjectConfig}
    {vars : List Str} {out : ProjectConfig} {st : WalkState}
    {p : Str} {im : List (Str × VariantPair)} {vp : VariantPair}
    (hrun : handle_variants tok env cfg vars = .ok out)
    (hwalk : walkTokens {} (tok (joinWords vars)) = .ok st)
    (hin : alookup p st.package_variant_map = some im)
    (hnd : (im.map Prod.fst).Nodup)
    (hv : alookup kversion im = some vp)
    (hpm : ∃ pkgs, spack_packages env cfg.source = .ok pkgs ∧ p ∈ pkgs.map Prod.fst) :
    ∃ l, alookup p out.packages = some (vp.variant :: l) := by
  obtain ⟨st', hwalk', hm⟩ := handle_variants_ok_elim hrun
  rw [hwalk] at hwalk'
  cases Except.ok.inj hwalk'
  obtain ⟨c, cx, gen, heq⟩ := mergeAfterWalk_eq tok env cfg vars st
  rw [heq] at hm
  obtain ⟨pkgs', packages, hsp, hproc, hdep, hout⟩ := mergeAfterBlocks_ok_elim hm
  obtain ⟨pkgs, hpk, hmem⟩ := hpm
  rw [cfgAfterBlocks_source, hpk] at hsp
  cases Except.ok.inj hsp
  have hpkg : out.packages = packages := by rw [hout]
  rw [hpkg]
  exact processPackages_pkg_version tok c cx gen (gmapAfterBlocks st.general_variant_map)
    hin hnd hv _ _ _ hproc (Or.inl hmem)

def c1Pkg : PkgDesc := ⟨none, []⟩

def c1Env : Env := ⟨fun _ => ["foo".toList], fun p => if p = "foo".toList then some c1Pkg else none⟩

def c1Cfg : ProjectConfig := { name := "proj1".toList, source := "srcs1".toList }

/-- The configuration produced by running the merger on `"foo @1.0"`. -/
def c1Out : ProjectConfig :=
  { name := "proj1".toList, source := "srcs1".toList, compiler := some none,
    cxxstd := some DEFAULT_CXXSTD, generator := some DEFAULT_GENERATOR,
    variants := some "foo @1.0".toList,
    packages := [("foo".toList, ["@1.0".toList])], dependencies := [] }

/-- C1 counterexample: with variant input `"foo @1.0"` the caller
supplies a package-scoped `version` override for `foo`; the final stored
requirement list is `["@1.0"]` — the package-scoped value replaced the
forced `@develop`, which does not appear at all, so the claim that the
forced value survives and the package-scoped one is discarded is false. -/
theorem c1_counterexample :
    handle_variants sptokenize c1Env c1Cfg ["foo @1.0".toList] = .ok c1Out ∧
      alookup "foo".toList c1Out.packages = some ["@1.0".toList] ∧
      DEVELOP_VARIANT.variant ∉ ["@1.0".toList] := by
  exact ⟨rfl, rfl, by decide⟩

/-- The walk state produced while tokenizing `"foo @1.0"`. -/
def c1St : WalkState :=
  { package_variant_map := [("foo".toList, [(kversion, ⟨.s "1.0".toList, "@1.0".toList⟩)])],
    scope := .pkg "foo".toList }

/-- Witness for C1 (amended) on the `"foo @1.0"` run. -/
theorem c1_witness :
    ∃ l, alookup "foo".toList c1Out.packages = some ("@1.0".toList :: l) :=
  @c1_theorem sptokenize c1Env c1Cfg ["foo @1.0".toList] c1Out c1St "foo".toList
    [(kversion, ⟨.s "1.0".toList, "@1.0".toList⟩)] ⟨.s "1.0".toList, "@1.0".toList⟩
    rfl rfl rfl (by decide) rfl ⟨[("foo".toList, c1Pkg)], rfl, by decide⟩

/-! ### C4: serialization round-trip -/

/-- Whether a character occurs in a string. -/
def hasChar (c : Char) : Str → Bool
  | [] => false
  | d :: s => if d = c then true else hasChar c s

/-- A token is canonical for the modelled token source: its text is a
single non-empty whitespace-free word that re-tokenizes to the token
itself. -/
def SelfToken (t : Token) : Prop :=
  tokenizeWord t.value = [t] ∧ t.value ≠ [] ∧ hasChar ' ' t.value = false

instance (t : Token) : Decidable (SelfToken t) := by
  unfold SelfToken
  infer_instance

theorem splitWordsAux_word (w : Str) :
    hasChar ' ' w = false → ∀ s acc, splitWordsAux (w ++ s) acc = splitWordsAux s (w.reverse ++ acc) := by
  induction w with
  | nil => intro _ s acc; simp
  | cons ch w ih =>
    intro hw s acc
    by_cases hc : ch = ' '
    · rw [hc] at hw
      simp [hasChar] at hw
    · simp only [hasChar, if_neg hc] at hw
      show splitWordsAux (ch :: (w ++ s)) acc = _
      simp only [splitWordsAux, if_neg hc]
      rw [ih hw s (ch :: acc)]
      simp

theorem splitWords_joinWords : ∀ ws : List Str,
    (∀ w ∈ ws, w ≠ [] ∧ hasChar ' ' w = false) → splitWords (joinWords ws) = ws := by
  intro ws
  induction ws with
  | nil => intro _; rfl
  | cons w ws ih =>
    intro h
    obtain ⟨hne, hsp⟩ := h w (List.mem_cons_self _ _)
    cases ws with
    | nil =>
      show splitWordsAux (joinWords [w]) [] = [w]
      have hjw : joinWords [w] = w ++ [] := by simp [joinWords]
      rw [hjw, splitWordsAux_word w hsp [] []]
      rw [List.append_nil]
      have hr : ¬w.reverse = [] := by simpa using hne
      simp [splitWordsAux, hr]
    | cons w2 ws2 =>
      show splitWordsAux (joinWords (w :: w2 :: ws2)) [] = w :: w2 :: ws2
      have hjw : joinWords (w :: w2 :: ws2) = w ++ ' ' :: joinWords (w2 :: ws2) := rfl
      rw [hjw, splitWordsAux_word w hsp _ [], List.append_nil]
      have hr : ¬w.reverse = [] := by simpa using hne
      show (if ' ' = ' ' then if w.reverse = [] then splitWordsAux (joinWords (w2 :: ws2)) []
        else w.reverse.reverse :: splitWordsAux (joinWords (w2 :: ws2)) []
        else splitWordsAux (joinWords (w2 :: ws2)) (' ' :: w.reverse)) = w :: w2 :: ws2
      rw [if_pos rfl, if_neg hr, List.reverse_reverse]
      have := ih (fun u hu => h u (List.mem_cons_of_mem _ hu))
      rw [show splitWordsAux (joinWords (w2 :: ws2)) [] = w2 :: ws2 from this]

theorem sptokenize_joinWords (ws : List Str) (h : ∀ w ∈ ws, w ≠ [] ∧ hasChar ' ' w = false) :
    sptokenize (joinWords ws) = ws.foldr (fun w acc => tokenizeWord w ++ acc) [] := by
  unfold sptokenize
  rw [show splitWords (joinWords ws) = ws from splitWords_joinWords ws h]

theorem handle_variant_variant {t : Token} {n : Str} {vp : VariantPair}
    (h : handle_variant t = .ok (n, vp)) : vp.variant = t.value := by
  unfold handle_variant at h
  split at h <;>
    first
      | (rw [Except.ok.injEq, Prod.mk.injEq] at h; rw [← h.2]; rfl)
      | (rw [Except.ok.injEq, Prod.mk.injEq] at h; rw [← h.2])
      | cases h
      | (split at h <;>
          first
            | (rw [Except.ok.injEq, Prod.mk.injEq] at h; rw [← h.2]; rfl)
            | (rw [Except.ok.injEq, Prod.mk.injEq] at h; rw [← h.2])
            | cases h)

theorem classifyAll_mem : ∀ {ts : List Token} {l : List (Str × VariantPair)},
    classifyAll ts = .ok l → ∀ e ∈ l, ∃ t ∈ ts, handle_variant t = .ok e := by
  intro ts
  induction ts with
  | nil =>
    intro l h e he
    simp only [classifyAll] at h
    cases h
    cases he
  | cons t ts ih =>
    intro l h e he
    simp only [classifyAll] at h
    cases h1 : handle_variant t with
    | error er => rw [h1] at h; cases h
    | ok nv =>
      rw [h1] at h
      cases h2 : classifyAll ts with
      | error er => rw [h2] at h; cases h
      | ok l' =>
        rw [h2] at h
        cases h
        rcases List.mem_cons.1 he with rfl | he'
        · exact ⟨t, List.mem_cons_self _ _, h1⟩
        · obtain ⟨u, hu, hcu⟩ := ih h2 e he'
          exact ⟨u, List.mem_cons_of_mem _ hu, hcu⟩

theorem mem_dictInsert [DecidableEq κ] {x : κ × α} {k : κ} {v : α} :
    ∀ {m : List (κ × α)}, x ∈ dictInsert m k v → x ∈ m ∨ x = (k, v) := by
  intro m
  induction m with
  | nil =>
    intro h
    simp only [dictInsert] at h
    exact Or.inr (List.mem_singleton.1 h)
  | cons p m ih =>
    intro h
    by_cases hp : p.1 = k
    · simp only [dictInsert, if_pos hp] at h
      rcases List.mem_cons.1 h with he | hm
      · exact Or.inr he
      · exact Or.inl (List.mem_cons_of_mem _ hm)
    · simp only [dictInsert, if_neg hp] at h
      rcases List.mem_cons.1 h with he | hm
      · exact Or.inl (he ▸ List.mem_cons_self _ _)
      · rcases ih hm with hm' | he
        · exact Or.inl (List.mem_cons_of_mem _ hm')
        · exact Or.inr he

theorem mem_foldInsert [DecidableEq κ] {x : κ × α} :
    ∀ {l mm : List (κ × α)}, x ∈ foldInsert mm l → x ∈ mm ∨ x ∈ l := by
  intro l
  induction l with
  | nil => intro mm h; exact Or.inl h
  | cons y l ih =>
    intro mm h
    have hstep : foldInsert mm (y :: l) = foldInsert (dictInsert mm y.1 y.2) l := rfl
    rw [hstep] at h
    rcases ih h with hm | hl
    · rcases mem_dictInsert hm with hm' | he
      · exact Or.inl hm'
      · right
        rw [he]
        exact List.mem_cons_self _ _
    · exact Or.inr (List.mem_cons_of_mem _ hl)

theorem mem_keys_dictInsert [DecidableEq κ] {x k : κ} {v : α} :
    ∀ {m : List (κ × α)}, x ∈ (dictInsert m k v).map Prod.fst → x = k ∨ x ∈ m.map Prod.fst := by
  intro m h
  rcases List.mem_map.1 h with ⟨q, hq, hqx⟩
  rcases mem_dictInsert hq with hm | he
  · exact Or.inr (hqx ▸ List.mem_map.2 ⟨q, hm, rfl⟩)
  · left
    rw [← hqx, he]

theorem dictInsert_keys_nodup [DecidableEq κ] {m : List (κ × α)}
    (h : (m.map Prod.fst).Nodup) (k : κ) (v : α) :
    ((dictInsert m k v).map Prod.fst).Nodup := by
  induction m with
  | nil => simp [dictInsert]
  | cons p m ih =>
    obtain ⟨a, b⟩ := p
    rw [List.map_cons, List.nodup_cons] at h
    by_cases hp : a = k
    · subst hp
      have hins : dictInsert ((a, b) :: m) a v = (a, v) :: m := by simp [dictInsert]
      rw [hins, List.map_cons, List.nodup_cons]
      exact h
    · simp only [dictInsert, if_neg hp, List.map_cons, List.nodup_cons]
      refine ⟨fun hm => ?_, ih h.2⟩
      rcases mem_keys_dictInsert hm with he | hm'
      · exact hp he
      · exact h.1 hm'

theorem foldInsert_keys_nodup [DecidableEq κ] :
    ∀ (l mm : List (κ × α)), (mm.map Prod.fst).Nodup → ((foldInsert mm l).map Prod.fst).Nodup := by
  intro l
  induction l with
  | nil => intro mm h; exact h
  | cons y l ih =>
    intro mm h
    exact ih (dictInsert mm y.1 y.2) (dictInsert_keys_nodup h y.1 y.2)

theorem mem_of_mem_dictPop_snd [DecidableEq κ] {x : κ × α} {k : κ} :
    ∀ {m : List (κ × α)}, x ∈ (dictPop k m).2 → x ∈ m := by
  intro m
  induction m with
  | nil => intro h; simp [dictPop] at h
  | cons p m ih =>
    intro h
    by_cases hp : p.1 = k
    · simp only [dictPop, if_pos hp] at h
      exact List.mem_cons_of_mem _ h
    · simp only [dictPop, if_neg hp] at h
      rcases List.mem_cons.1 h with he | hm
      · exact he ▸ List.mem_cons_self _ _
      · exact List.mem_cons_of_mem _ (ih hm)

theorem dictPop_snd_keys_sublist [DecidableEq κ] (k : κ) :
    ∀ (m : List (κ × α)), ((dictPop k m).2.map Prod.fst).Sublist (m.map Prod.fst) := by
  intro m
  induction m with
  | nil => simp [dictPop]
  | cons p m ih =>
    by_cases hp : p.1 = k
    · simp only [dictPop, if_pos hp, List.map_cons]
      exact List.Sublist.cons _ (List.Sublist.refl _)
    · simp only [dictPop, if_neg hp, List.map_cons]
      exact List.Sublist.cons₂ _ ih

theorem alookup_dictPop_snd_self [DecidableEq κ] {m : List (κ × α)}
    (hnd : (m.map Prod.fst).Nodup) (k : κ) : alookup k (dictPop k m).2 = none := by
  induction m with
  | nil => rfl
  | cons p m ih =>
    obtain ⟨a, b⟩ := p
    rw [List.map_cons, List.nodup_cons] at hnd
    by_cases hp : a = k
    · subst hp
      simp only [dictPop, if_pos rfl]
      exact alookup_eq_none hnd.1
    · simp only [dictPop, if_neg hp]
      simp only [alookup, if_neg hp]
      exact ih hnd.2

theorem dictPop_map_variant (k : Str) : ∀ (m : List (Str × VariantPair)),
    dictPop k (m.map (fun kv => (kv.1, kv.2.variant))) =
      ((dictPop k m).1.map VariantPair.variant,
        (dictPop k m).2.map (fun kv => (kv.1, kv.2.variant))) := by
  intro m
  induction m with
  | nil => rfl
  | cons p m ih =>
    obtain ⟨a, b⟩ := p
    by_cases hp : a = k
    · simp [dictPop, hp]
    · simp [dictPop, hp, ih]

/-- The entries of a requirement map in serialization order: the
`version` entry, then `compiler`, then the rest. -/
def frontEntries (m : List (Str × α)) : List (Str × α) :=
  (match (dictPop kversion m).1 with
   | some v => [(kversion, v)]
   | none => []) ++
  (match (dictPop kcompiler (dictPop kversion m).2).1 with
   | some c => [(kcompiler, c)]
   | none => []) ++
  (dictPop kcompiler (dictPop kversion m).2).2

theorem orl_mapVariant (m : List (Str × VariantPair)) :
    ordered_requirement_list (m.map (fun kv => (kv.1, kv.2.variant))) =
      (frontEntries m).map (fun kv => kv.2.variant) := by
  simp only [ordered_requirement_list, frontEntries]
  rw [dictPop_map_variant]
  dsimp only
  rw [dictPop_map_variant]
  dsimp only
  cases (dictPop kversion m).1 <;> cases (dictPop kcompiler (dictPop kversion m).2).1 <;>
    simp [List.map_map, Function.comp]

theorem frontEntries_mem {m : List (Str × α)} {e : Str × α}
    (h : e ∈ frontEntries m) : e ∈ m := by
  unfold frontEntries at h
  rw [List.append_assoc, List.mem_append] at h
  rcases h with h | h
  · cases h1 : (dictPop kversion m).1 with
    | none => rw [h1] at h; cases h
    | some v =>
      rw [h1] at h
      have he : e = (kversion, v) := List.mem_singleton.1 h
      have : alookup kversion m = some v := by rw [← dictPop_fst, h1]
      exact he ▸ mem_of_alookup_eq_some this
  · rw [List.mem_append] at h
    rcases h with h | h
    · cases h2 : (dictPop kcompiler (dictPop kversion m).2).1 with
      | none => rw [h2] at h; cases h
      | some c =>
        rw [h2] at h
        have he : e = (kcompiler, c) := List.mem_singleton.1 h
        have hlk : alookup kcompiler (dictPop kversion m).2 = some c := by
          rw [← dictPop_fst, h2]
        exact mem_of_mem_dictPop_snd (he ▸ mem_of_alookup_eq_some hlk)
    · exact mem_of_mem_dictPop_snd (mem_of_mem_dictPop_snd h)

theorem alookup_frontEntries {m : List (Str × α)}
    (hnd : (m.map Prod.fst).Nodup) (n : Str) :
    alookup n (frontEntries m) = alookup n m := by
  have hndV : (((dictPop kversion m).2).map Prod.fst).Nodup :=
    (dictPop_snd_keys_sublist kversion m).nodup hnd
  have hvc : alookup kcompiler (dictPop kversion m).2 = alookup kcompiler m :=
    alookup_dictPop_snd_ne _ _ _ (by decide)
  unfold frontEntries
  rw [List.append_assoc, alookup_append, alookup_append]
  by_cases hv : n = kversion
  · subst hv
    have hE : alookup kversion (dictPop kcompiler (dictPop kversion m).2).2 = none := by
      rw [alookup_dictPop_snd_ne _ _ _ (by decide)]
      exact alookup_dictPop_snd_self hnd kversion
    cases h1 : (dictPop kversion m).1 with
    | some v =>
      have hm : alookup kversion m = some v := by rw [← dictPop_fst, h1]
      rw [hm]
      simp [alookup]
    | none =>
      have hm : alookup kversion m = none := by rw [← dictPop_fst, h1]
      rw [hm]
      cases h2 : (dictPop kcompiler (dictPop kversion m).2).1 with
      | some c => simp [alookup, hE, show ¬(kcompiler = kversion) from by decide]
      | none => simp [alookup, hE]
  · by_cases hc : n = kcompiler
    · subst hc
      have hE : alookup kcompiler (dictPop kcompiler (dictPop kversion m).2).2 = none :=
        alookup_dictPop_snd_self hndV kcompiler
      cases h2 : (dictPop kcompiler (dictPop kversion m).2).1 with
      | some c =>
        have hm : alookup kcompiler m = some c := by rw [← hvc, ← dictPop_fst, h2]
        rw [hm]
        cases h1 : (dictPop kversion m).1 with
        | some v => simp [alookup, show ¬(kversion = kcompiler) from by decide]
        | none => simp [alookup]
      | none =>
        have hm : alookup kcompiler m = none := by rw [← hvc, ← dictPop_fst, h2]
        rw [hm]
        cases h1 : (dictPop kversion m).1 with
        | some v => simp [alookup, hE, show ¬(kversion = kcompiler) from by decide]
        | none => simp [alookup, hE]
    · have hE : alookup n (dictPop kcompiler (dictPop kversion m).2).2 = alookup n m := by
        rw [alookup_dictPop_snd_ne _ _ _ hc, alookup_dictPop_snd_ne _ _ _ hv]
      cases h1 : (dictPop kversion m).1 with
      | some v =>
        cases h2 : (dictPop kcompiler (dictPop kversion m).2).1 with
        | some c => simp [alookup, hE, show ¬(kversion = n) from fun h => hv h.symm,
            show ¬(kcompiler = n) from fun h => hc h.symm]
        | none => simp [alookup, hE, show ¬(kversion = n) from fun h => hv h.symm]
      | none =>
        cases h2 : (dictPop kcompiler (dictPop kversion m).2).1 with
        | some c => simp [alookup, hE, show ¬(kcompiler = n) from fun h => hc h.symm]
        | none => simp [alookup, hE]

theorem frontEntries_keys_nodup {m : List (Str × α)}
    (hnd : (m.map Prod.fst).Nodup) : ((frontEntries m).map Prod.fst).Nodup := by
  have hndV : (((dictPop kversion m).2).map Prod.fst).Nodup :=
    (dictPop_snd_keys_sublist kversion m).nodup hnd
  have hndE : (((dictPop kcompiler (dictPop kversion m).2).2).map Prod.fst).Nodup :=
    (dictPop_snd_keys_sublist kcompiler _).nodup hndV
  have hvE : kversion ∉ ((dictPop kcompiler (dictPop kversion m).2).2).map Prod.fst := by
    intro hmem
    have hs := alookup_isSome_of_mem_keys hmem
    rw [alookup_dictPop_snd_ne _ _ _ (by decide),
      alookup_dictPop_snd_self hnd kversion] at hs
    cases hs
  have hcE : kcompiler ∉ ((dictPop kcompiler (dictPop kversion m).2).2).map Prod.fst := by
    intro hmem
    have hs := alookup_isSome_of_mem_keys hmem
    rw [alookup_dictPop_snd_self hndV kcompiler] at hs
    cases hs
  unfold frontEntries
  cases (dictPop kversion m).1 <;> cases (dictPop kcompiler (dictPop kversion m).2).1
  · exact hndE
  · exact List.nodup_cons.2 ⟨hcE, hndE⟩
  · exact List.nodup_cons.2 ⟨hvE, hndE⟩
  · refine List.nodup_cons.2 ⟨?_, List.nodup_cons.2 ⟨hcE, hndE⟩⟩
    intro hmm
    rcases List.mem_cons.1 hmm with hx | hx
    · exact (show ¬(kversion = kcompiler) from by decide) hx
    · exact hvE hx

theorem classifyAll_entries : ∀ (L : List (Str × VariantPair)),
    (∀ e ∈ L, ∃ t, tokenizeWord e.2.variant = [t] ∧ handle_variant t = .ok e) →
    classifyAll ((L.map (fun e => e.2.variant)).foldr (fun w acc => tokenizeWord w ++ acc) []) =
      .ok L := by
  intro L
  induction L with
  | nil => intro _; rfl
  | cons e L ih =>
    intro h
    obtain ⟨t, ht, hc⟩ := h e (List.mem_cons_self _ _)
    rw [List.map_cons, List.foldr_cons, ht]
    show (match handle_variant t with
      | Except.error er => (Except.error er : Except Err (List (Str × VariantPair)))
      | Except.ok nv =>
        match classifyAll (List.foldr (fun w acc => tokenizeWord w ++ acc) []
            (List.map (fun x => x.2.variant) L)) with
        | Except.error er => Except.error er
        | Except.ok l2 => Except.ok (nv :: l2)) = Except.ok (e :: L)
    rw [hc, ih (fun u hu => h u (List.mem_cons_of_mem _ hu))]

/-- C4: serializing the RequirementSet built from canonical (self-
tokenizing) variant tokens, joining with spaces, re-tokenizing and
re-classifying yields an equivalent RequirementSet: the name-to-
VariantPair mapping is unchanged (order moved version/compiler to the
front only). -/
theorem c4_theorem (ts : List Token) (l : List (Str × VariantPair))
    (hl : classifyAll ts = .ok l) (hself : ∀ t ∈ ts, SelfToken t) :
    ∃ l', classifyAll (sptokenize (joinWords
        (ordered_requirement_list ((foldInsert [] l).map (fun kv => (kv.1, kv.2.variant)))))) = .ok l' ∧
      ∀ n, alookup n (foldInsert [] l') = alookup n (foldInsert [] l) := by
  have hmnd : ((foldInsert [] l).map Prod.fst).Nodup := foldInsert_keys_nodup l [] (by simp)
  have hgood : ∀ e ∈ frontEntries (foldInsert [] l),
      (∃ t, tokenizeWord e.2.variant = [t] ∧ handle_variant t = .ok e) ∧
        e.2.variant ≠ [] ∧ hasChar ' ' e.2.variant = false := by
    intro e he
    have hem : e ∈ foldInsert [] l := frontEntries_mem he
    rcases mem_foldInsert hem with h0 | hel
    · cases h0
    · obtain ⟨t, ht, hc⟩ := classifyAll_mem hl e hel
      obtain ⟨hs1, hs2, hs3⟩ := hself t ht
      have hvv : e.2.variant = t.value := handle_variant_variant hc
      refine ⟨⟨t, by rw [hvv]; exact hs1, hc⟩, by rw [hvv]; exact hs2, by rw [hvv]; exact hs3⟩
  refine ⟨frontEntries (foldInsert [] l), ?_, ?_⟩
  · rw [orl_mapVariant]
    rw [sptokenize_joinWords _ ?hw]
    case hw =>
      intro w hw
      rcases List.mem_map.1 hw with ⟨e, he, hew⟩
      obtain ⟨_, h2, h3⟩ := hgood e he
      exact ⟨hew ▸ h2, hew ▸ h3⟩
    exact classifyAll_entries _ (fun e he => (hgood e he).1)
  · intro n
    rw [alookup_foldInsert,
      alookup_reverse_of_nodup (frontEntries_keys_nodup hmnd),
      alookup_frontEntries hmnd]
    show orElseO (alookup n (foldInsert [] l)) none = alookup n (foldInsert [] l)
    exact orElseO_none_right _

def c4Ts : List Token :=
  [⟨.VERSION, "@develop".toList⟩, ⟨.KEY_VALUE_PAIR, "cxxstd=17".toList⟩,
   ⟨.BOOL_VARIANT, "+shared".toList⟩]

def c4L : List (Str × VariantPair) :=
  [(kversion, ⟨.s "develop".toList, "@develop".toList⟩),
   (kcxxstd, ⟨.s "17".toList, "cxxstd=17".toList⟩),
   ("shared".toList, ⟨.b true, "+shared".toList⟩)]

/-- Witness for C4 on a three-token requirement set. -/
theorem c4_witness :
    ∃ l', classifyAll (sptokenize (joinWords
        (ordered_requirement_list ((foldInsert [] c4L).map (fun kv => (kv.1, kv.2.variant)))))) = .ok l' ∧
      ∀ n, alookup n (foldInsert [] l') = alookup n (foldInsert [] c4L) :=
  c4_theorem c4Ts c4L rfl (by decide)

/-! ### C6: idempotence of the merger under empty input -/

theorem alookup_none_iff [DecidableEq κ] {k : κ} : ∀ {m : List (κ × α)},
    alookup k m = none ↔ k ∉ m.map Prod.fst := by
  intro m
  constructor
  · intro h hmem
    have := alookup_isSome_of_mem_keys hmem
    rw [h] at this
    cases this
  · exact alookup_eq_none

theorem alookup_reverse_none [DecidableEq κ] {k : κ} {m : List (κ × α)}
    (h : alookup k m = none) : alookup k m.reverse = none := by
  rw [alookup_none_iff] at h ⊢
  intro hmem
  rw [List.map_reverse, List.mem_reverse] at hmem
  exact h hmem

theorem alookup_of_mem_nodup [DecidableEq κ] {k : κ} {v : α} {m : List (κ × α)}
    (hnd : (m.map Prod.fst).Nodup) (hmem : (k, v) ∈ m) : alookup k m = some v := by
  induction m with
  | nil => cases hmem
  | cons p m ih =>
    obtain ⟨a, b⟩ := p
    rw [List.map_cons, List.nodup_cons] at hnd
    rcases List.mem_cons.1 hmem with he | hm
    · cases he
      simp [alookup]
    · have hak : ¬a = k := by
        intro hak
        subst hak
        exact hnd.1 (List.mem_map.2 ⟨(a, v), hm, rfl⟩)
      simp only [alookup, if_neg hak]
      exact ih hnd.2 hm

theorem dictPop_snd_of_none [DecidableEq κ] {k : κ} : ∀ {m : List (κ × α)},
    (dictPop k m).1 = none → (dictPop k m).2 = m := by
  intro m
  induction m with
  | nil => intro _; rfl
  | cons p m ih =>
    intro h
    by_cases hp : p.1 = k
    · simp only [dictPop, if_pos hp] at h
      cases h
    · simp only [dictPop, if_neg hp] at h ⊢
      rw [ih h]

theorem foldInsert_cons_notmem [DecidableEq κ] {x : κ × α} :
    ∀ (L : List (κ × α)) (mm : List (κ × α)), x.1 ∉ L.map Prod.fst →
      foldInsert (x :: mm) L = x :: foldInsert mm L := by
  intro L
  induction L with
  | nil => intro mm _; rfl
  | cons y L ih =>
    intro mm hx
    rw [List.map_cons] at hx
    have hxy : ¬x.1 = y.1 := fun h => hx (List.mem_cons_self _ _ |> (h ▸ ·))
    have hyx : ¬y.1 = x.1 := fun h => hxy h.symm
    have hstep : foldInsert (x :: mm) (y :: L) = foldInsert (dictInsert (x :: mm) y.1 y.2) L := rfl
    rw [hstep]
    have hins : dictInsert (x :: mm) y.1 y.2 = x :: dictInsert mm y.1 y.2 := by
      obtain ⟨a, b⟩ := x
      simp only [dictInsert, if_neg hxy]
    rw [hins, ih (dictInsert mm y.1 y.2) (fun hm => hx (List.mem_cons_of_mem _ hm))]
    rfl

theorem foldInsert_nil_of_nodup [DecidableEq κ] :
    ∀ (L : List (κ × α)), (L.map Prod.fst).Nodup → foldInsert ([] : List (κ × α)) L = L := by
  intro L
  induction L with
  | nil => intro _; rfl
  | cons x L ih =>
    intro hnd
    rw [List.map_cons, List.nodup_cons] at hnd
    have hstep : foldInsert ([] : List (κ × α)) (x :: L) = foldInsert [x] L := by
      obtain ⟨a, b⟩ := x
      rfl
    rw [hstep, show ([x] : List (κ × α)) = x :: [] from rfl,
      foldInsert_cons_notmem L [] hnd.1, ih hnd.2]

theorem orl_eq_frontEntries_values (m : List (Str × Str)) :
    ordered_requirement_list m = (frontEntries m).map Prod.snd := by
  simp only [ordered_requirement_list, frontEntries]
  cases (dictPop kversion m).1 <;> cases (dictPop kcompiler (dictPop kversion m).2).1 <;> simp

theorem orl_frontEntries (m : List (Str × Str)) (hnd : (m.map Prod.fst).Nodup) :
    ordered_requirement_list (frontEntries m) = (frontEntries m).map Prod.snd := by
  have hndV : (((dictPop kversion m).2).map Prod.fst).Nodup :=
    (dictPop_snd_keys_sublist kversion m).nodup hnd
  have hvE : alookup kversion (dictPop kcompiler (dictPop kversion m).2).2 = none := by
    rw [alookup_dictPop_snd_ne _ _ _ (by decide)]
    exact alookup_dictPop_snd_self hnd kversion
  have hcE : alookup kcompiler (dictPop kcompiler (dictPop kversion m).2).2 = none :=
    alookup_dictPop_snd_self hndV kcompiler
  unfold frontEntries
  cases hV : (dictPop kversion m).1 with
  | none =>
    cases hC : (dictPop kcompiler (dictPop kversion m).2).1 with
    | none =>
      simp only [List.singleton_append, List.cons_append, List.nil_append]
      simp only [ordered_requirement_list]
      have h1 : (dictPop kversion (dictPop kcompiler (dictPop kversion m).2).2).1 = none := by
        rw [dictPop_fst]
        exact hvE
      have h1' := dictPop_snd_of_none h1
      have h2 : (dictPop kcompiler (dictPop kcompiler (dictPop kversion m).2).2).1 = none := by
        rw [dictPop_fst]
        exact hcE
      rw [h1, h1', h2, dictPop_snd_of_none h2]
      rfl
    | some cv =>
      simp only [List.singleton_append, List.cons_append, List.nil_append]
      simp only [ordered_requirement_list]
      have h1 : (dictPop kversion ((kcompiler, cv) :: (dictPop kcompiler (dictPop kversion m).2).2)).1 = none := by
        rw [dictPop_fst]
        simp only [alookup, if_neg (show ¬(kcompiler = kversion) from by decide)]
        exact hvE
      rw [h1, dictPop_snd_of_none h1]
      have hd : dictPop kcompiler ((kcompiler, cv) :: (dictPop kcompiler (dictPop kversion m).2).2) =
          (some cv, (dictPop kcompiler (dictPop kversion m).2).2) := by
        simp [dictPop]
      rw [hd]
      rfl
  | some vv =>
    cases hC : (dictPop kcompiler (dictPop kversion m).2).1 with
    | none =>
      simp only [List.singleton_append, List.cons_append, List.nil_append]
      simp only [ordered_requirement_list]
      have hd : dictPop kversion ((kversion, vv) :: (dictPop kcompiler (dictPop kversion m).2).2) =
          (some vv, (dictPop kcompiler (dictPop kversion m).2).2) := by
        simp [dictPop]
      rw [hd]
      have h2 : (dictPop kcompiler (dictPop kcompiler (dictPop kversion m).2).2).1 = none := by
        rw [dictPop_fst]
        exact hcE
      rw [h2, dictPop_snd_of_none h2]
      rfl
    | some cv =>
      simp only [List.singleton_append, List.cons_append, List.nil_append]
      simp only [ordered_requirement_list]
      have hd : dictPop kversion ((kversion, vv) :: (kcompiler, cv) :: (dictPop kcompiler (dictPop kversion m).2).2) =
          (some vv, (kcompiler, cv) :: (dictPop kcompiler (dictPop kversion m).2).2) := by
        simp [dictPop]
      rw [hd]
      have hd2 : dictPop kcompiler ((kcompiler, cv) :: (dictPop kcompiler (dictPop kversion m).2).2) =
          (some cv, (dictPop kcompiler (dictPop kversion m).2).2) := by
        simp [dictPop]
      rw [hd2]
      rfl

/-- Boolean core of `GoodEntry`: the text tokenizes to a single token
that classifies back to the entry's name with the text itself as the
canonical variant string. -/
def goodEntryB (n s : Str) : Bool :=
  match tokenizeWord s with
  | [t] =>
    match handle_variant t with
    | Except.ok nv => nv.1 = n && nv.2.variant = s
    | Except.error _ => false
  | _ => false

/-- A stored requirement entry that round-trips through the modelled
token source: a single non-empty whitespace-free word whose unique token
classifies back to the entry's name, with the text as canonical variant
string. -/
def GoodEntry (n s : Str) : Prop :=
  s ≠ [] ∧ hasChar ' ' s = false ∧ goodEntryB n s = true

instance (n s : Str) : Decidable (GoodEntry n s) := by
  unfold GoodEntry
  infer_instance

theorem goodEntry_elim {n s : Str} (h : GoodEntry n s) :
    ∃ t vp, tokenizeWord s = [t] ∧ handle_variant t = Except.ok (n, vp) ∧ vp.variant = s := by
  obtain ⟨-, -, hb⟩ := h
  cases htk : tokenizeWord s with
  | nil =>
    simp only [goodEntryB, htk] at hb
    exact Bool.noConfusion hb
  | cons t ts =>
    cases ts with
    | cons u us =>
      simp only [goodEntryB, htk] at hb
      exact Bool.noConfusion hb
    | nil =>
      cases hhv : handle_variant t with
      | error e =>
        simp only [goodEntryB, htk, hhv] at hb
        exact Bool.noConfusion hb
      | ok nv =>
        simp only [goodEntryB, htk, hhv, Bool.and_eq_true, decide_eq_true_eq] at hb
        obtain ⟨h1, h2⟩ := hb
        exact ⟨t, nv.2, rfl, by rw [hhv, ← h1], h2⟩

theorem reparseFold_tokens : ∀ (L : List (Str × Str)) (macc : List (Str × Str)),
    (∀ e ∈ L, GoodEntry e.1 e.2) →
    reparseFold ((L.map Prod.snd).foldr (fun w acc => tokenizeWord w ++ acc) []) macc
      = Except.ok (foldInsert macc L) := by
  intro L
  induction L with
  | nil => intro macc _; rfl
  | cons e L ih =>
    intro macc h
    obtain ⟨t, vp, htk, hhv, hvv⟩ := goodEntry_elim (h e (List.mem_cons_self _ _))
    rw [List.map_cons, List.foldr_cons, htk, List.singleton_append]
    show (match handle_variant t with
      | Except.error er => (Except.error er : Except Err (List (Str × Str)))
      | Except.ok nv =>
        reparseFold (List.foldr (fun w acc => tokenizeWord w ++ acc) [] (List.map Prod.snd L))
          (dictInsert macc nv.1 nv.2.variant)) = Except.ok (foldInsert macc (e :: L))
    rw [hhv]
    dsimp only
    rw [hvv]
    exact ih (dictInsert macc e.1 e.2) (fun u hu => h u (List.mem_cons_of_mem _ hu))

theorem reparseFold_stored (L : List (Str × Str)) (hg : ∀ e ∈ L, GoodEntry e.1 e.2) :
    reparseFold (sptokenize (joinWords (L.map Prod.snd))) [] = Except.ok (foldInsert [] L) := by
  rw [sptokenize_joinWords]
  · exact reparseFold_tokens L [] hg
  · intro w hw
    obtain ⟨e, he, hew⟩ := List.mem_map.1 hw
    obtain ⟨hne, hsp, -⟩ := hg e he
    exact ⟨hew ▸ hne, hew ▸ hsp⟩

/-- The conditions under which a stored requirement map is a fixed point
of the per-package rewrite of lines 224-253: distinct names,
round-trippable entries, and the map already carries the forced
`@develop` version, the project compiler, and the capability-filtered
cxxstd/generator values. -/
def ReqFixed (c : Option VariantPair) (x g : VariantPair) (pkg : PkgDesc)
    (m : List (Str × Str)) : Prop :=
  (m.map Prod.fst).Nodup ∧
  (∀ e ∈ m, GoodEntry e.1 e.2) ∧
  alookup kversion m = some DEVELOP_VARIANT.variant ∧
  (c = none ∨ alookup kcompiler m = c.map VariantPair.variant) ∧
  (pkgSupports pkg kcxxstd = true → alookup kcxxstd m = some x.variant) ∧
  (pkgSupports pkg kgenerator = true → alookup kgenerator m = some g.variant)

instance (c : Option VariantPair) (x g : VariantPair) (pkg : PkgDesc) (m : List (Str × Str)) :
    Decidable (ReqFixed c x g pkg m) := by
  unfold ReqFixed
  infer_instance

theorem processPackage_run2 (c : Option VariantPair) (x g : VariantPair)
    (packages : List (Str × List Str)) (p : Str) (pkg : PkgDesc) (m : List (Str × Str))
    (hl : alookup p packages = some ((frontEntries m).map Prod.snd))
    (hr : ReqFixed c x g pkg m) :
    processPackage sptokenize c x g [] [] packages p pkg = Except.ok packages := by
  obtain ⟨hnd, hgood, hv, hc, hx, hgn⟩ := hr
  have hndF : ((frontEntries m).map Prod.fst).Nodup := frontEntries_keys_nodup hnd
  have hlkF : ∀ n, alookup n (frontEntries m) = alookup n m := alookup_frontEntries hnd
  have hrep : reparseFold (sptokenize (joinWords ((frontEntries m).map Prod.snd))) []
      = Except.ok (frontEntries m) := by
    rw [reparseFold_stored (frontEntries m) (fun e he => hgood e (frontEntries_mem he)),
      foldInsert_nil_of_nodup _ hndF]
  have e1 : dictInsert (frontEntries m) kversion DEVELOP_VARIANT.variant = frontEntries m :=
    dictInsert_lookup_self _ _ _ (by rw [hlkF]; exact hv)
  have e3 : (if pkgSupports pkg kcxxstd = true
      then dictInsert (frontEntries m) kcxxstd x.variant else frontEntries m) = frontEntries m := by
    by_cases h3 : pkgSupports pkg kcxxstd = true
    · rw [if_pos h3]
      exact dictInsert_lookup_self _ _ _ (by rw [hlkF]; exact hx h3)
    · rw [if_neg h3]
  have e4 : (if pkgSupports pkg kgenerator = true
      then dictInsert (frontEntries m) kgenerator g.variant else frontEntries m) = frontEntries m := by
    by_cases h4 : pkgSupports pkg kgenerator = true
    · rw [if_pos h4]
      exact dictInsert_lookup_self _ _ _ (by rw [hlkF]; exact hgn h4)
    · rw [if_neg h4]
  cases c with
  | none =>
    simp only [processPackage]
    rw [hl]
    simp only [Option.getD_some]
    rw [hrep]
    dsimp only
    simp only [alookup, Option.getD_none, List.map_nil, List.foldl_nil]
    rw [e1, e3, e4, orl_frontEntries m hnd, dictInsert_lookup_self _ _ _ hl]
  | some cv =>
    have e2 : dictInsert (frontEntries m) kcompiler cv.variant = frontEntries m := by
      refine dictInsert_lookup_self _ _ _ ?_
      rw [hlkF]
      rcases hc with h | h
      · cases h
      · exact h
    simp only [processPackage]
    rw [hl]
    simp only [Option.getD_some]
    rw [hrep]
    dsimp only
    simp only [alookup, Option.getD_none, List.map_nil, List.foldl_nil]
    rw [e1, e2, e3, e4, orl_frontEntries m hnd, dictInsert_lookup_self _ _ _ hl]

theorem processPackages_run2 (c : Option VariantPair) (x g : VariantPair) :
    ∀ (pkgs : List (Str × PkgDesc)) (packages : List (Str × List Str)),
    (∀ pp ∈ pkgs, ∃ m, alookup pp.1 packages = some ((frontEntries m).map Prod.snd) ∧
        ReqFixed c x g pp.2 m) →
    processPackages sptokenize c x g [] [] packages pkgs = Except.ok packages := by
  intro pkgs
  induction pkgs with
  | nil => intro packages _; rfl
  | cons pp pkgs ih =>
    intro packages h
    obtain ⟨m, hlk, hr⟩ := h pp (List.mem_cons_self _ _)
    simp only [processPackages]
    rw [processPackage_run2 c x g packages pp.1 pp.2 m hlk hr]
    dsimp only
    exact ih packages (fun q hq => h q (List.mem_cons_of_mem _ hq))

/-- C6 (amended): a merger run with an empty new-variants sequence
returns the configuration unchanged provided the configuration's stored
state is already a fixed point of the forcing: the compiler, cxxstd and
generator slots are recorded, every stored package key still resolves in
the source tree, and each known package's stored requirement list is the
serialization of a round-trippable requirement map that already carries
the forced `@develop` version, the recorded compiler, and the
capability-filtered cxxstd/generator values.  (A first run that applied
a package-scoped override of one of the managed names produces a
configuration outside these conditions, and a second run changes it —
see the counterexample.) -/
theorem c6_theorem (env : Env) (cfg : ProjectConfig) (pkgs : List (Str × PkgDesc))
    (c : Option VariantPair) (x g : VariantPair)
    (hsp : spack_packages env cfg.source = Except.ok pkgs)
    (hcomp : cfg.compiler = some c)
    (hcx : cfg.cxxstd = some x)
    (hgen : cfg.generator = some g)
    (hkeys : ∀ kv ∈ cfg.packages, (alookup kv.1 pkgs).isSome = true)
    (hreq : ∀ pp ∈ pkgs, ∃ m, alookup pp.1 cfg.packages = some ((frontEntries m).map Prod.snd) ∧
        ReqFixed c x g pp.2 m) :
    handle_variants sptokenize env cfg [] = Except.ok cfg := by
  obtain ⟨n, so, co, cx0, ge0, va, pa, de⟩ := cfg
  have hco : co = some c := hcomp
  have hcx0 : cx0 = some x := hcx
  have hge0 : ge0 = some g := hgen
  subst hco
  subst hcx0
  subst hge0
  have hsp' : spack_packages env so = Except.ok pkgs := hsp
  have hkeys' : ∀ kv ∈ pa, (alookup kv.1 pkgs).isSome = true := hkeys
  have hreq' : ∀ pp ∈ pkgs, ∃ m, alookup pp.1 pa = some ((frontEntries m).map Prod.snd) ∧
      ReqFixed c x g pp.2 m := hreq
  show mergeAfterBlocks sptokenize env
    (ProjectConfig.mk n so (some c) (some x) (some g) va pa de) c x g [] {} = _
  simp only [mergeAfterBlocks]
  rw [hsp']
  dsimp only
  rw [List.filter_eq_self.mpr hkeys']
  rw [processPackages_run2 c x g pkgs pa hreq']
  rfl

def c6CPkg : PkgDesc := ⟨none, []⟩

def c6CEnv : Env := ⟨fun _ => ["foo".toList], fun p => if p = "foo".toList then some c6CPkg else none⟩

def c6Cfg0 : ProjectConfig := { name := "proj6c".toList, source := "srcs6c".toList }

/-- The configuration produced by a first merger run on `"foo @1.0"`. -/
def c6Cfg1 : ProjectConfig :=
  { name := "proj6c".toList, source := "srcs6c".toList, compiler := some none,
    cxxstd := some DEFAULT_CXXSTD, generator := some DEFAULT_GENERATOR,
    variants := some "foo @1.0".toList,
    packages := [("foo".toList, ["@1.0".toList])], dependencies := [] }

/-- The configuration produced by re-running the merger on `c6Cfg1` with
an empty variant list: the stored `@1.0` is reset to `@develop`. -/
def c6Cfg2 : ProjectConfig :=
  { name := "proj6c".toList, source := "srcs6c".toList, compiler := some none,
    cxxstd := some DEFAULT_CXXSTD, generator := some DEFAULT_GENERATOR,
    variants := some "foo @1.0".toList,
    packages := [("foo".toList, ["@develop".toList])], dependencies := [] }

/-- C6 counterexample: the merger is not idempotent under empty input.
A first run on `"foo @1.0"` (a package-scoped `version` override) yields
`c6Cfg1`; running the merger again on `c6Cfg1` with an empty new-variants
sequence and the unchanged source tree yields `c6Cfg2`, which differs
from `c6Cfg1` (`foo`'s requirement list flips back to `["@develop"]`). -/
theorem c6_counterexample :
    handle_variants sptokenize c6CEnv c6Cfg0 ["foo @1.0".toList] = Except.ok c6Cfg1 ∧
    handle_variants sptokenize c6CEnv c6Cfg1 [] = Except.ok c6Cfg2 ∧
    c6Cfg2 ≠ c6Cfg1 :=
  ⟨rfl, rfl, by decide⟩

def c6Pkg : PkgDesc := ⟨none, [kcxxstd, kgenerator]⟩

def c6Env : Env := ⟨fun _ => ["foo".toList], fun p => if p = "foo".toList then some c6Pkg else none⟩

def c6Pkgs : List (Str × PkgDesc) := [("foo".toList, c6Pkg)]

/-- The requirement map underlying the stored list of the C6 witness. -/
def c6M : List (Str × Str) :=
  [(kversion, "@develop".toList), (kcompiler, "%gcc".toList),
   (kcxxstd, "cxxstd=17".toList), (kgenerator, "generator=make".toList)]

def c6CompilerVP : VariantPair := ⟨.s "gcc".toList, "%gcc".toList⟩

/-- A configuration that is a fixed point of the merger: its stored state
already reflects the forcing. -/
def c6Cfg : ProjectConfig :=
  { name := "proj6".toList, source := "srcs6".toList,
    compiler := some (some c6CompilerVP), cxxstd := some DEFAULT_CXXSTD,
    generator := some DEFAULT_GENERATOR,
    packages := [("foo".toList,
      ["@develop".toList, "%gcc".toList, "cxxstd=17".toList, "generator=make".toList])],
    dependencies := [] }

/-- Witness for C6 (amended): re-running the merger with empty input on
`c6Cfg` returns it unchanged. -/
theorem c6_witness : handle_variants sptokenize c6Env c6Cfg [] = Except.ok c6Cfg :=
  c6_theorem c6Env c6Cfg c6Pkgs (some c6CompilerVP) DEFAULT_CXXSTD DEFAULT_GENERATOR
    rfl rfl rfl rfl (by decide)
    (fun pp hpp => by
      simp only [c6Pkgs, List.mem_singleton] at hpp
      subst hpp
      exact ⟨c6M, by decide, by decide⟩)

end Mpd
